import Mathlib

/-!
Verification development for the YoutubeTranscript repository.

The subject is the transcript cue normalizer and multi-format subtitle
writer shared by `download_transcript_formats.py` and
`flask_transcript_api.py` (the two files contain byte-identical copies of
`extract_video_id`, `normalize_transcript_obj` and the cue parsing
helpers, so one embedding covers both).

Modelling conventions used throughout:

* Python floats are modelled as exact rationals (`ℚ`).  All numeric
  values appearing in the program (cue starts, durations, timestamps)
  are decimal literals or sums/differences of them, so `ℚ` represents
  them exactly; binary floating-point rounding is outside this model.
* Python strings are modelled as `List Char` where the program
  manipulates their characters (timestamps, subtitle lines, URLs), and
  as `String` where they are only used as dictionary keys or enum-like
  tags.
* A file's content is modelled as its list of lines: every writer in the
  source builds a `lines` list and writes `"\n".join(lines)`, and the
  cue regexes consume the text line by line, so the join/split round
  trip is the identity as long as no line contains a newline character
  (which the writers guarantee for the cue shapes quantified over here).
* Raising an exception is modelled by returning `none`.
-/

set_option allowUnsafeReducibility true
attribute [semireducible] Rat.add Rat.mul Rat.sub Rat.div Rat.inv Rat.ofScientific

namespace YT

/-! ## Python value model for `normalize_transcript_obj`

`normalize_transcript_obj` reads fields of transcript items only through
`it.get(key)` / `it.get(key, None)` (mapping items) and
`getattr(it, key, None)` (attribute items).  Both return `None` when the
key is missing, so "key absent" and "key present with value None" are
observationally identical, and mapping items and attribute items behave
identically; a single keyed-lookup representation models both. -/

/-- A primitive Python value stored in a transcript item field. -/
inductive Prim where
  | null : Prim
  | pstr : String → Prim
  | pnum : ℚ → Prim
deriving DecidableEq

/-- A raw transcript item: a dict (or attribute object) as a key/value list. -/
abbrev RawItem := List (String × Prim)

/-- `it.get(k)` / `getattr(it, k, None)`: first binding of `k`, else `None`. -/
def rawGet (it : RawItem) (k : String) : Prim :=
  match it with
  | [] => Prim.null
  | (k', v) :: rest => if k' = k then v else rawGet rest k

/-- A normalized item dict, in the insertion order used by `to_item_dict`. -/
abbrev ItemD := List (String × Prim)

/-- The five keys every normalized cue dict carries, in insertion order. -/
def fiveKeys : List String := ["text", "start", "duration", "speaker", "confidence"]

/-- `to_item_dict` (download_transcript_formats.py lines 38-59): build a dict
with exactly the keys text/start/duration/speaker/confidence, each read from
the item with a `None` default.  The trailing `setdefault` calls in the source
are no-ops because every key was just assigned. -/
def to_item_dict (it : RawItem) : ItemD :=
  [("text", rawGet it "text"),
   ("start", rawGet it "start"),
   ("duration", rawGet it "duration"),
   ("speaker", rawGet it "speaker"),
   ("confidence", rawGet it "confidence")]

mutual
/-- A transcript-like Python object, as `normalize_transcript_obj` probes it:

* `seqItems`: `some items` iff `isinstance(obj, (list, tuple))`;
* `iterItems`: `some items` iff `list(obj)` succeeds (returning `items`),
  `none` iff iterating the object raises;
* `methods`: the accessor attributes whose lookup-and-call succeeds,
  together with the object each returns (`res() if callable(res) else res`);
* `raising`: names of accessor attributes that exist but raise when called.
  `normalize_transcript_obj` never inspects this list: an accessor that
  raises is caught by `except Exception: pass` and skipped, exactly like an
  absent one, so it is carried only so that such accessors are
  representable. -/
inductive TObj where
  | mk (seqItems : Option (List RawItem))
       (iterItems : Option (List RawItem))
       (methods : MethodList)
       (raising : List String)
inductive MethodList where
  | nil : MethodList
  | cons (name : String) (result : TObj) (rest : MethodList) : MethodList
end

mutual
/-- Structural size of an object tree; dominates the recursion depth of
`normalize_transcript_obj`. -/
def tsize : TObj → ℕ
  | TObj.mk _ _ ms _ => 1 + msize ms
def msize : MethodList → ℕ
  | MethodList.nil => 0
  | MethodList.cons _ t rest => 1 + tsize t + msize rest
end

/-- `getattr(obj, n)` for a successfully-returning accessor: first binding. -/
def lookupMethod (ms : MethodList) (n : String) : Option TObj :=
  match ms with
  | MethodList.nil => none
  | MethodList.cons k t rest => if k = n then some t else lookupMethod rest n

/-- The accessor-name tuple probed by the `for method_name in (...)` loop. -/
def accessorNames : List String := ["fetch", "list", "to_list", "as_list", "get_transcript"]

/-- The accessor loop of `normalize_transcript_obj`, abstracted over the
recursive normalization call `norm`.  An absent accessor (or a raising one,
see `TObj.raising`) is skipped; a successful call recurses into the result
via `norm`, and a failed recursive normalization is caught by
`except Exception: pass` and also skipped. -/
def probeNames (norm : TObj → Option (List ItemD)) (ms : MethodList) :
    List String → Option (List ItemD)
  | [] => none
  | n :: rest =>
    match lookupMethod ms n with
    | some t =>
      match norm t with
      | some r => some r
      | none => probeNames norm ms rest
    | none => probeNames norm ms rest

/-- `normalize_transcript_obj` (lines 37-83), with explicit recursion fuel so
that the definition is structurally recursive (the real recursion descends
into accessor results, which are structurally smaller;
`normalize_transcript_obj` below supplies enough fuel for any input).
Returns `none` where the source raises `RuntimeError`. -/
def normalizeF : ℕ → TObj → Option (List ItemD)
  | 0, _ => none
  | fuel + 1, TObj.mk seqItems iterItems methods _ =>
    match seqItems with
    | some items => some (items.map to_item_dict)
    | none =>
      -- `items_iter = list(obj); if items_iter: return [...]` — an empty
      -- iteration result falls through to the accessor loop.
      match iterItems with
      | some items =>
        if items = [] then probeNames (normalizeF fuel) methods accessorNames
        else some (items.map to_item_dict)
      | none => probeNames (normalizeF fuel) methods accessorNames

/-- Fuel bound: `tsize` of the object tree dominates the recursion depth of
`normalize_transcript_obj`, so it is always enough fuel. -/
def normalize_transcript_obj (t : TObj) : Option (List ItemD) :=
  normalizeF (tsize t) t

/-- The `seqItems` component: whether the object is a Python list/tuple. -/
def seqItemsOf : TObj → Option (List RawItem)
  | TObj.mk s _ _ _ => s

/-- The successfully-returning accessor attributes of the object. -/
def methodsOf : TObj → MethodList
  | TObj.mk _ _ ms _ => ms

theorem tsize_pos (t : TObj) : 1 ≤ tsize t := by
  cases t with
  | mk s i ms rs => simp [tsize]

theorem lookupMethod_tsize {n : String} {t' : TObj} :
    ∀ {ms : MethodList}, lookupMethod ms n = some t' → tsize t' ≤ msize ms
  | MethodList.nil, h => by simp [lookupMethod] at h
  | MethodList.cons k t rest, h => by
    by_cases hk : k = n
    · rw [lookupMethod, if_pos hk] at h
      cases h
      simp [msize]
      omega
    · rw [lookupMethod, if_neg hk] at h
      have := lookupMethod_tsize h
      simp [msize]
      omega

theorem probeNames_congr {norm1 norm2 : TObj → Option (List ItemD)} {ms : MethodList}
    (h : ∀ n t', lookupMethod ms n = some t' → norm1 t' = norm2 t') :
    ∀ (names : List String), probeNames norm1 ms names = probeNames norm2 ms names
  | [] => rfl
  | n :: rest => by
    cases hl : lookupMethod ms n with
    | none =>
      simp only [probeNames, hl]
      exact probeNames_congr h rest
    | some t' =>
      simp only [probeNames, hl, h n t' hl]
      cases norm2 t' with
      | none => exact probeNames_congr h rest
      | some r => rfl

theorem normalizeF_congr :
    ∀ (f g : ℕ) (t : TObj), tsize t ≤ f → tsize t ≤ g → normalizeF f t = normalizeF g t := by
  intro f
  induction f with
  | zero =>
    intro g t hf _
    have := tsize_pos t
    omega
  | succ f ih =>
    intro g t hf hg
    cases t with
    | mk seqI iterI ms rs =>
      cases g with
      | zero =>
        have := tsize_pos (TObj.mk seqI iterI ms rs)
        omega
      | succ g =>
        have hms : msize ms ≤ f := by simp [tsize] at hf; omega
        have hms' : msize ms ≤ g := by simp [tsize] at hg; omega
        have hprobe :
            probeNames (normalizeF f) ms accessorNames
              = probeNames (normalizeF g) ms accessorNames := by
          apply probeNames_congr
          intro n t' hl
          have ht' := lookupMethod_tsize hl
          exact ih g t' (le_trans ht' hms) (le_trans ht' hms')
        simp only [normalizeF]
        rw [hprobe]

theorem normalizeF_eq_normalize {f : ℕ} {t : TObj} (h : tsize t ≤ f) :
    normalizeF f t = normalize_transcript_obj t :=
  normalizeF_congr f (tsize t) t h le_rfl

theorem probeNames_shape {norm : TObj → Option (List ItemD)} {ms : MethodList} :
    ∀ {names : List String} {cues : List ItemD}, probeNames norm ms names = some cues →
      ∃ t', (∃ n, lookupMethod ms n = some t') ∧ norm t' = some cues
  | [], _, h => by simp [probeNames] at h
  | n :: rest, cues, h => by
    cases hl : lookupMethod ms n with
    | none =>
      simp only [probeNames, hl] at h
      exact probeNames_shape h
    | some t' =>
      cases hn : norm t' with
      | none =>
        simp only [probeNames, hl, hn] at h
        exact probeNames_shape h
      | some r =>
        simp only [probeNames, hl, hn, Option.some.injEq] at h
        exact ⟨t', ⟨n, hl⟩, by rw [hn, h]⟩

theorem normalizeF_shape :
    ∀ (f : ℕ) (t : TObj) (cues : List ItemD), normalizeF f t = some cues →
      ∃ items : List RawItem, cues = items.map to_item_dict := by
  intro f
  induction f with
  | zero => intro t cues h; simp [normalizeF] at h
  | succ f ih =>
    intro t cues h
    cases t with
    | mk seqI iterI ms rs =>
      have probeCase :
          probeNames (normalizeF f) ms accessorNames = some cues →
            ∃ items : List RawItem, cues = items.map to_item_dict := by
        intro hp
        obtain ⟨t', _, ht'⟩ := probeNames_shape hp
        exact ih t' cues ht'
      cases seqI with
      | some items =>
        simp only [normalizeF, Option.some.injEq] at h
        exact ⟨items, h.symm⟩
      | none =>
        cases iterI with
        | none =>
          simp only [normalizeF] at h
          exact probeCase h
        | some items =>
          by_cases hi : items = []
          · simp only [normalizeF, if_pos hi] at h
            exact probeCase h
          · simp only [normalizeF, if_neg hi, Option.some.injEq] at h
            exact ⟨items, h.symm⟩

theorem probeNames_eq_none_iff {norm : TObj → Option (List ItemD)} {ms : MethodList} :
    ∀ {names : List String}, (probeNames norm ms names = none ↔
      ∀ n ∈ names, ∀ t', lookupMethod ms n = some t' → norm t' = none)
  | [] => by simp [probeNames]
  | n :: rest => by
    cases hl : lookupMethod ms n with
    | none =>
      simp only [probeNames, hl]
      rw [probeNames_eq_none_iff]
      constructor
      · intro h m hm t' hlm
        rcases List.mem_cons.1 hm with rfl | hm'
        · rw [hlm] at hl; cases hl
        · exact h m hm' t' hlm
      · intro h m hm t' hlm
        exact h m (List.mem_cons_of_mem _ hm) t' hlm
    | some t' =>
      cases hn : norm t' with
      | none =>
        simp only [probeNames, hl, hn]
        rw [probeNames_eq_none_iff]
        constructor
        · intro h m hm u hlm
          rcases List.mem_cons.1 hm with rfl | hm'
          · rw [hlm] at hl; cases hl; exact hn
          · exact h m hm' u hlm
        · intro h m hm u hlm
          exact h m (List.mem_cons_of_mem _ hm) u hlm
      | some r =>
        simp only [probeNames, hl, hn, reduceCtorEq, false_iff, not_forall]
        refine ⟨n, by simp [List.mem_cons], t', hl, ?_⟩
        rw [hn]
        simp

/-- `rawGet` of a key that does not occur in the item is `None`. -/
theorem rawGet_not_mem {k : String} :
    ∀ {it : RawItem}, k ∉ it.map Prod.fst → rawGet it k = Prim.null
  | [], _ => rfl
  | (k', v) :: rest, h => by
    have hk : ¬ k' = k := by
      intro e
      exact h (by simp [e])
    rw [rawGet, if_neg hk]
    exact rawGet_not_mem (fun hm => h (List.mem_cons_of_mem _ hm))

/-- C3: every cue dict produced by `normalize_transcript_obj` carries exactly
the five keys text, start, duration, speaker, confidence (in that order); a
field missing from the source item is defaulted to `None`; and normalizing
the list of plain dicts `[{"text": "hi", "start": 1.0}]` yields
`[{"text": "hi", "start": 1.0, "duration": None, "speaker": None,
"confidence": None}]`. -/
theorem C3_five_keys :
    (∀ (t : TObj) (cues : List ItemD), normalize_transcript_obj t = some cues →
      ∀ c ∈ cues, c.map Prod.fst = fiveKeys)
    ∧ (∀ (it : RawItem) (k : String), k ∈ fiveKeys → k ∉ it.map Prod.fst →
        rawGet (to_item_dict it) k = Prim.null)
    ∧ normalize_transcript_obj
        (TObj.mk (some [[("text", Prim.pstr "hi"), ("start", Prim.pnum 1)]]) none
          MethodList.nil [])
      = some [[("text", Prim.pstr "hi"), ("start", Prim.pnum 1), ("duration", Prim.null),
               ("speaker", Prim.null), ("confidence", Prim.null)]] := by
  refine ⟨?_, ?_, by decide⟩
  · intro t cues h c hc
    obtain ⟨items, rfl⟩ := normalizeF_shape (tsize t) t cues h
    obtain ⟨raw, _, rfl⟩ := List.mem_map.1 hc
    rfl
  · intro it k hk hnot
    have hraw := rawGet_not_mem hnot
    simp only [fiveKeys, List.mem_cons, List.not_mem_nil, or_false] at hk
    rcases hk with rfl | rfl | rfl | rfl | rfl <;>
      simpa [to_item_dict, rawGet] using hraw

/-- Witness for `C3_five_keys` at concrete inputs. -/
theorem C3_five_keys_witness :
    ((to_item_dict [("start", Prim.pnum 1)]).map Prod.fst = fiveKeys)
    ∧ ("speaker" ∈ fiveKeys ∧
        "speaker" ∉ ([("text", Prim.pstr "hi")] : RawItem).map Prod.fst ∧
        rawGet (to_item_dict [("text", Prim.pstr "hi")]) "speaker" = Prim.null) := by
  constructor
  · exact C3_five_keys.1 (TObj.mk (some [[("start", Prim.pnum 1)]]) none MethodList.nil [])
      [to_item_dict [("start", Prim.pnum 1)]] (by decide) _ (by decide)
  · exact ⟨by decide, by decide,
      C3_five_keys.2.1 [("text", Prim.pstr "hi")] "speaker" (by decide) (by decide)⟩

/-- The object returned by the `fetch` accessor below: a real, empty list. -/
def C4emptyRes : TObj := TObj.mk (some []) none MethodList.nil []

/-- The object returned by the `list` accessor below: `[{"text": "hi"}]`. -/
def C4fullRes : TObj :=
  TObj.mk (some [[("text", Prim.pstr "hi")]]) none MethodList.nil []

/-- An opaque object (neither sequence nor iterable) whose `fetch` accessor
yields an empty sequence while its `list` accessor yields a non-empty one. -/
def C4obj : TObj :=
  TObj.mk none none
    (MethodList.cons "fetch" C4emptyRes (MethodList.cons "list" C4fullRes MethodList.nil)) []

/-- C4 counterexample: the claim says accessors that "yield an empty
sequence" are passed over, so on `C4obj` it predicts the result of the
`list` accessor (the first yielding a non-empty sequence), namely the
normalized `[{"text": "hi"}]`.  The code instead returns the `fetch`
accessor's empty normalization: an accessor returning an actual (empty)
list is returned as `[]`, not skipped. -/
theorem C4_cex :
    normalize_transcript_obj C4obj = some []
    ∧ lookupMethod (methodsOf C4obj) "fetch" = some C4emptyRes
    ∧ normalize_transcript_obj C4emptyRes = some []
    ∧ lookupMethod (methodsOf C4obj) "list" = some C4fullRes
    ∧ normalize_transcript_obj C4fullRes
        = some [[("text", Prim.pstr "hi"), ("start", Prim.null), ("duration", Prim.null),
                 ("speaker", Prim.null), ("confidence", Prim.null)]]
    ∧ some ([] : List ItemD)
        ≠ some [[("text", Prim.pstr "hi"), ("start", Prim.null), ("duration", Prim.null),
                 ("speaker", Prim.null), ("confidence", Prim.null)]] :=
  ⟨by decide, rfl, by decide, rfl, by decide, by decide⟩

/-- C4 (amended): for an opaque input object (not a list/tuple, and not an
iterable yielding items) the accessors are probed in the fixed order fetch,
list, to_list, as_list, get_transcript; the result is the recursive
normalization of the first accessor that exists and whose call and recursive
normalization succeed — even when that result is the empty sequence — while
accessors that are absent, raise, or whose result fails to normalize are
passed over; the function fails (`NormalizationError`) exactly when every
accessor fails in one of those ways. -/
theorem C4_first_success_probe (ms : MethodList) (rs : List String)
    (iterI : Option (List RawItem)) (hIter : iterI = none ∨ iterI = some []) :
    normalize_transcript_obj (TObj.mk none iterI ms rs)
      = probeNames normalize_transcript_obj ms accessorNames
    ∧ (probeNames normalize_transcript_obj ms accessorNames = none ↔
        ∀ n ∈ accessorNames, ∀ t', lookupMethod ms n = some t' →
          normalize_transcript_obj t' = none) := by
  constructor
  · have hstep : normalize_transcript_obj (TObj.mk none iterI ms rs)
        = probeNames (normalizeF (msize ms)) ms accessorNames := by
      rw [normalize_transcript_obj]
      have ht : tsize (TObj.mk none iterI ms rs) = msize ms + 1 := by
        simp [tsize, Nat.add_comm]
      rw [ht]
      rcases hIter with rfl | rfl
      · simp only [normalizeF]
      · simp [normalizeF]
    rw [hstep]
    exact probeNames_congr
      (fun n t' hl => normalizeF_eq_normalize (lookupMethod_tsize hl)) _
  · exact probeNames_eq_none_iff

/-- Witness for `C4_first_success_probe` at a concrete opaque object. -/
theorem C4_first_success_probe_witness :
    ((none : Option (List RawItem)) = none ∨ (none : Option (List RawItem)) = some [])
    ∧ (normalize_transcript_obj (TObj.mk none none MethodList.nil [])
        = probeNames normalize_transcript_obj MethodList.nil accessorNames
      ∧ (probeNames normalize_transcript_obj MethodList.nil accessorNames = none ↔
          ∀ n ∈ accessorNames, ∀ t', lookupMethod MethodList.nil n = some t' →
            normalize_transcript_obj t' = none)) :=
  ⟨Or.inl rfl, C4_first_success_probe MethodList.nil [] none (Or.inl rfl)⟩

/-- C10: `normalize_transcript_obj` of a (possibly empty) list/tuple never
fails — an empty list input yields the empty cue sequence — and a
`NormalizationError` (`none`) arises only for non-sequence inputs on which
every accessor strategy fails. -/
theorem C10_empty_sequence_ok :
    (∀ (iterI : Option (List RawItem)) (ms : MethodList) (rs : List String),
      normalize_transcript_obj (TObj.mk (some []) iterI ms rs) = some [])
    ∧ (∀ t : TObj, normalize_transcript_obj t = none →
        seqItemsOf t = none
        ∧ ∀ n ∈ accessorNames, ∀ t', lookupMethod (methodsOf t) n = some t' →
            normalize_transcript_obj t' = none) := by
  constructor
  · intro iterI ms rs
    rw [normalize_transcript_obj]
    have ht : tsize (TObj.mk (some []) iterI ms rs) = msize ms + 1 := by
      simp [tsize, Nat.add_comm]
    rw [ht]
    simp [normalizeF]
  · intro t h
    cases t with
    | mk seqI iterI ms rs =>
      have hprobe : probeNames (normalizeF (msize ms)) ms accessorNames
          = probeNames normalize_transcript_obj ms accessorNames :=
        probeNames_congr
          (fun n t' hl => normalizeF_eq_normalize (lookupMethod_tsize hl)) _
      rw [normalize_transcript_obj] at h
      have ht : tsize (TObj.mk seqI iterI ms rs) = msize ms + 1 := by
        simp [tsize, Nat.add_comm]
      rw [ht] at h
      cases seqI with
      | some items => simp [normalizeF] at h
      | none =>
        refine ⟨rfl, ?_⟩
        simp only [methodsOf]
        cases iterI with
        | none =>
          simp only [normalizeF] at h
          rw [hprobe] at h
          exact probeNames_eq_none_iff.1 h
        | some items =>
          by_cases hi : items = []
          · simp only [normalizeF, if_pos hi] at h
            rw [hprobe] at h
            exact probeNames_eq_none_iff.1 h
          · simp only [normalizeF, if_neg hi] at h
            cases h

/-- Witness for `C10_empty_sequence_ok` at a concrete failing object. -/
theorem C10_empty_sequence_ok_witness :
    normalize_transcript_obj (TObj.mk none none MethodList.nil []) = none
    ∧ (seqItemsOf (TObj.mk none none MethodList.nil []) = none
      ∧ ∀ n ∈ accessorNames, ∀ t',
          lookupMethod (methodsOf (TObj.mk none none MethodList.nil [])) n = some t' →
            normalize_transcript_obj t' = none) :=
  ⟨by decide, C10_empty_sequence_ok.2 (TObj.mk none none MethodList.nil []) (by decide)⟩

/-! ## Timestamp formatting (`secs_to_srt_timestamp`, `secs_to_vtt_timestamp`)

Where the program nominally works with floats we use exact rationals.  The
one float-library behaviour retained is that `datetime.timedelta` stores a
whole number of microseconds (rounding its `seconds=` argument half to
even), because the source routes the seconds value through
`timedelta(seconds=secs)` before decomposing it. -/

/-- Python `int(x)` applied to a number: truncation toward zero. -/
def pyInt (q : ℚ) : ℤ := if 0 ≤ q then ⌊q⌋ else -⌊-q⌋

/-- Python `round(x)` (no digits argument): round half to even. -/
def pyRound (q : ℚ) : ℤ :=
  if q - ⌊q⌋ < 1/2 then ⌊q⌋
  else if 1/2 < q - ⌊q⌋ then ⌊q⌋ + 1
  else if 2 ∣ ⌊q⌋ then ⌊q⌋ else ⌊q⌋ + 1

/-- `timedelta(seconds=secs).total_seconds()`: the value quantized to whole
microseconds (half-to-even), returned as seconds. -/
def tdSeconds (secs : ℚ) : ℚ := (pyRound (secs * 1000000) : ℚ) / 1000000

/-- The character for decimal digit `d`. -/
def digitCh (d : ℕ) : Char := Char.ofNat (48 + d)

/-- Decimal digit characters of `n` (fuelled for structural recursion;
`natChars` supplies `n + 1`, always enough since `n / 10 < n`). -/
def natCharsF : ℕ → ℕ → List Char
  | 0, _ => []
  | fuel + 1, n =>
    if n < 10 then [digitCh n]
    else natCharsF fuel (n / 10) ++ [digitCh (n % 10)]

/-- Decimal digit characters of a natural number. -/
def natChars (n : ℕ) : List Char := natCharsF (n + 1) n

/-- Python `f"{n:0Wd}"`: zero-pad the decimal form of `n` to total width `w`
(a sign, when present, counts toward the width and precedes the padding). -/
def padInt (w : ℕ) (n : ℤ) : List Char :=
  if n < 0 then
    '-' :: (List.replicate (w - 1 - (natChars n.natAbs).length) '0' ++ natChars n.natAbs)
  else
    List.replicate (w - (natChars n.toNat).length) '0' ++ natChars n.toNat

/-- Shared body of `secs_to_srt_timestamp` (lines 240-248) and
`secs_to_vtt_timestamp` (lines 250-258), which are identical in the source
except for the separator before the milliseconds.  Python `//` and `%` on
integers are floor division and floor modulus (`Int.fdiv` / `Int.fmod`). -/
def ts_chars (sep : Char) (secs : ℚ) : List Char :=
  let ts := tdSeconds secs
  let total := pyInt ts
  let hh := Int.fdiv total 3600
  let mm := Int.fdiv (Int.fmod total 3600) 60
  let ss := Int.fmod total 60
  let ms := pyInt ((ts - total) * 1000)
  padInt 2 hh ++ ':' :: padInt 2 mm ++ ':' :: padInt 2 ss ++ sep :: padInt 3 ms

/-- `secs_to_srt_timestamp`: `"HH:MM:SS,mmm"`. -/
def secs_to_srt_timestamp (secs : ℚ) : List Char := ts_chars ',' secs

/-- `secs_to_vtt_timestamp`: `"HH:MM:SS.mmm"`. -/
def secs_to_vtt_timestamp (secs : ℚ) : List Char := ts_chars '.' secs

theorem pyRound_intCast (n : ℤ) : pyRound (n : ℚ) = n := by
  rw [pyRound]
  rw [Int.floor_intCast]
  rw [if_pos (by simp)]

theorem tdSeconds_of_whole_us {secs : ℚ} {n : ℤ} (hn : secs * 1000000 = (n : ℚ)) :
    tdSeconds secs = secs := by
  rw [tdSeconds, hn, pyRound_intCast, ← hn]
  field_simp

theorem pyInt_of_nonneg {q : ℚ} (h : 0 ≤ q) : pyInt q = ⌊q⌋ := if_pos h

/-- C6 (amended): for a non-negative seconds value that is a whole number of
microseconds (the granularity of `timedelta`), both converters decompose it
as hours = ⌊secs⌋ fdiv 3600, minutes = (⌊secs⌋ fmod 3600) fdiv 60, whole
seconds = ⌊secs⌋ fmod 60 and milliseconds = ⌊(secs − ⌊secs⌋)·1000⌋ — the
milliseconds are *truncated*, not rounded — zero-padded to 2/2/2/3 digits,
the two formats differing only in the separator before the milliseconds
(comma for srt, period for vtt); in particular
`secs_to_srt_timestamp(3725.4) = "01:02:05,400"` and
`secs_to_vtt_timestamp(3725.4) = "01:02:05.400"`. -/
theorem C6_timestamp_format (secs : ℚ) (h0 : 0 ≤ secs)
    (hus : ∃ n : ℤ, secs * 1000000 = (n : ℚ)) :
    (secs_to_srt_timestamp secs
      = padInt 2 (Int.fdiv ⌊secs⌋ 3600) ++ ':' :: padInt 2 (Int.fdiv (Int.fmod ⌊secs⌋ 3600) 60)
        ++ ':' :: padInt 2 (Int.fmod ⌊secs⌋ 60) ++ ',' :: padInt 3 ⌊(secs - (⌊secs⌋ : ℚ)) * 1000⌋)
    ∧ (secs_to_vtt_timestamp secs
      = padInt 2 (Int.fdiv ⌊secs⌋ 3600) ++ ':' :: padInt 2 (Int.fdiv (Int.fmod ⌊secs⌋ 3600) 60)
        ++ ':' :: padInt 2 (Int.fmod ⌊secs⌋ 60) ++ '.' :: padInt 3 ⌊(secs - (⌊secs⌋ : ℚ)) * 1000⌋)
    ∧ secs_to_srt_timestamp (18627/5) = "01:02:05,400".toList
    ∧ secs_to_vtt_timestamp (18627/5) = "01:02:05.400".toList := by
  obtain ⟨n, hn⟩ := hus
  have hts : tdSeconds secs = secs := tdSeconds_of_whole_us hn
  have htotal : pyInt (tdSeconds secs) = ⌊secs⌋ := by
    rw [hts]
    exact pyInt_of_nonneg h0
  have hms : pyInt ((tdSeconds secs - (pyInt (tdSeconds secs) : ℚ)) * 1000)
      = ⌊(secs - (⌊secs⌋ : ℚ)) * 1000⌋ := by
    rw [htotal, hts]
    exact pyInt_of_nonneg (by
      have := Int.floor_le secs
      have hfr : 0 ≤ secs - (⌊secs⌋ : ℚ) := by linarith
      positivity)
  refine ⟨?_, ?_, by decide, by decide⟩
  · rw [secs_to_srt_timestamp, ts_chars]
    rw [hms, htotal]
  · rw [secs_to_vtt_timestamp, ts_chars]
    rw [hms, htotal]

/-- Witness for `C6_timestamp_format` at `3725.4` seconds. -/
theorem C6_timestamp_format_witness :
    (0 ≤ (18627/5 : ℚ) ∧ (18627/5 : ℚ) * 1000000 = ((3725400000 : ℤ) : ℚ))
    ∧ secs_to_srt_timestamp (18627/5) = "01:02:05,400".toList
    ∧ secs_to_vtt_timestamp (18627/5) = "01:02:05.400".toList :=
  ⟨⟨by norm_num, by norm_num⟩,
    (C6_timestamp_format (18627/5) (by norm_num) ⟨3725400000, by norm_num⟩).2.2⟩

/-- C6 counterexample: at `0.4567` seconds the rendered milliseconds are the
*truncation* `int(456.7) = 456`, so the timestamp is `"00:00:00,456"`, while
the claimed formula `round((secs − floor(secs))·1000) = round(456.7) = 457`
would give `"00:00:00,457"`. -/
theorem C6_cex :
    pyInt ((tdSeconds (4567/10000) - (pyInt (tdSeconds (4567/10000)) : ℚ)) * 1000) = 456
    ∧ pyRound (((4567/10000 : ℚ) - (⌊(4567/10000 : ℚ)⌋ : ℚ)) * 1000) = 457
    ∧ secs_to_srt_timestamp (4567/10000) = "00:00:00,456".toList
    ∧ secs_to_srt_timestamp (4567/10000) ≠ "00:00:00,457".toList
    ∧ secs_to_vtt_timestamp (4567/10000) = "00:00:00.456".toList :=
  ⟨by decide, by decide, by decide, by decide, by decide⟩

/-! ## Cues and the format writers

The writers read the normalized item dicts only at the five fixed keys, with
`None` defaults, so a cue is modelled as a record of the five (optional)
fields.  `start`, `duration` and `confidence` are numbers, `text` and
`speaker` strings.  Each writer is modelled as the list of lines it joins
with `"\n"` and writes to its output file. -/

/-- A normalized cue as consumed by the format writers. -/
structure Cue where
  text : Option (List Char)
  start : Option ℚ
  duration : Option ℚ
  speaker : Option (List Char)
  confidence : Option ℚ
deriving DecidableEq

/-- `compute_end` (lines 260-267). -/
def compute_end (start duration default_next_start : Option ℚ) : Option ℚ :=
  match start with
  | none => none
  | some s =>
    match duration with
    | some d => some (s + d)
    | none => default_next_start

/-- Python `duration if duration else 2.0`: both `None` and the float `0.0`
are falsy, so a known zero duration is also replaced by the default. -/
def durOrDefault : Option ℚ → ℚ
  | some d => if d = 0 then 2 else d
  | none => 2

/-- The per-cue start/end computation duplicated verbatim in `write_srt`
(lines 273-285) and `write_vtt` (lines 303-314): `i` is the 0-based cue
index and `next_start` is `items[i+1].get("start")` (`None` past the end).
After the `start is None` branch runs, `end` is never `None`, so the second
`if end is None` branch only fires for a known start. -/
def renderTimes (start duration next_start : Option ℚ) (i : ℕ) : ℚ × ℚ :=
  match start, compute_end start duration next_start with
  | none, _ => ((i : ℚ) * 2, (i : ℚ) * 2 + durOrDefault duration)
  | some s, none => (s, s + durOrDefault duration)
  | some s, some e => (s, e)

/-- The cue body line: `f"{speaker}: {text}"` when the speaker is truthy,
else `text`, where `text = it.get("text") or ""` (so a `None` text renders
as the empty string). -/
def cueBody (c : Cue) : List Char :=
  let text := match c.text with
    | some t => t
    | none => []
  match c.speaker with
  | some sp => if sp = [] then text else sp ++ ':' :: ' ' :: text
  | none => text

/-- `items[i+1].get("start")` as seen from cue `i`: the head's start, `None`
past the end of the list. -/
def headStart : List Cue → Option ℚ
  | [] => none
  | c2 :: _ => c2.start

/-- The cue blocks of `write_srt` (lines 269-298) from index `i` on: index
line, timing line, body line, blank separator. -/
def srtLines : ℕ → List Cue → List (List Char)
  | _, [] => []
  | i, c :: rest =>
    let se := renderTimes c.start c.duration (headStart rest) i
    natChars (i + 1)
      :: (secs_to_srt_timestamp se.1 ++ " --> ".toList ++ secs_to_srt_timestamp se.2)
      :: cueBody c
      :: [] :: srtLines (i + 1) rest

/-- `write_srt`: the lines whose `"\n"`-join is written to the output. -/
def write_srt (items : List Cue) : List (List Char) := srtLines 0 items

/-- The cue blocks of `write_vtt` (lines 300-325) from index `i` on. -/
def vttLines : ℕ → List Cue → List (List Char)
  | _, [] => []
  | i, c :: rest =>
    let se := renderTimes c.start c.duration (headStart rest) i
    (secs_to_vtt_timestamp se.1 ++ " --> ".toList ++ secs_to_vtt_timestamp se.2)
      :: cueBody c
      :: [] :: vttLines (i + 1) rest

/-- `write_vtt`: header `WEBVTT`, blank line, then the cue blocks. -/
def write_vtt (items : List Cue) : List (List Char) :=
  "WEBVTT".toList :: [] :: vttLines 0 items

/-- C1: for a cue with known start, `compute_end` returns start + duration
when the duration is non-null, else the next cue's start when that is
non-null, else null; and on the two-cue list
`[{start: 0, duration: 2, text: "a"}, {start: 2, duration: None, text: "b"}]`
both writers render end = 2.0 for cue 0 and end = 4.0 for cue 1 (the null
end falling back to start + default duration 2.0). -/
theorem C1_end_time_inference :
    (∀ (s : ℚ) (duration next_start : Option ℚ),
      compute_end (some s) duration next_start
        = match duration with
          | some d => some (s + d)
          | none => next_start)
    ∧ write_srt [⟨some "a".toList, some 0, some 2, none, none⟩,
                 ⟨some "b".toList, some 2, none, none, none⟩]
      = ["1".toList, "00:00:00,000 --> 00:00:02,000".toList, "a".toList, [],
         "2".toList, "00:00:02,000 --> 00:00:04,000".toList, "b".toList, []]
    ∧ write_vtt [⟨some "a".toList, some 0, some 2, none, none⟩,
                 ⟨some "b".toList, some 2, none, none, none⟩]
      = ["WEBVTT".toList, [],
         "00:00:00.000 --> 00:00:02.000".toList, "a".toList, [],
         "00:00:02.000 --> 00:00:04.000".toList, "b".toList, []] := by
  refine ⟨?_, by decide, by decide⟩
  intro s duration next_start
  cases duration <;> rfl

/-- C2 counterexample: a cue whose start is null but whose duration is the
*known* value 0.0 is rendered with end = synthetic start + 2.0 — Python's
`duration if duration else 2.0` treats the known 0.0 as falsy — where the
claim ("duration defaulted to 2.0 only when it is unknown") requires
end = synthetic start + 0.0. -/
theorem C2_cex :
    renderTimes none (some 0) none 0 = (0, 2)
    ∧ write_srt [⟨some "a".toList, none, some 0, none, none⟩]
      = ["1".toList, "00:00:00,000 --> 00:00:02,000".toList, "a".toList, []]
    ∧ ((0 : ℚ), (2 : ℚ)) ≠ ((0 : ℚ), 0 + 0) :=
  ⟨by decide, by decide, by decide⟩

/-- C2 (amended): in both writers a cue whose start is null receives the
synthetic start i·2.0 (0-based index) and end = synthetic start + duration
when the duration is known *and non-zero*, else synthetic start + 2.0 (the
default also applies to a known duration of exactly 0.0, which Python's
truthiness test treats like None); for a 3-cue all-null-timing list the
rendered starts are exactly 0.0, 2.0, 4.0. -/
theorem C2_synthetic_timeline :
    (∀ (duration next_start : Option ℚ) (i : ℕ),
      renderTimes none duration next_start i
        = ((i : ℚ) * 2, (i : ℚ) * 2 + durOrDefault duration))
    ∧ (∀ d : ℚ, d ≠ 0 → durOrDefault (some d) = d)
    ∧ durOrDefault none = 2
    ∧ durOrDefault (some 0) = 2
    ∧ write_srt [⟨some "a".toList, none, none, none, none⟩,
                 ⟨some "b".toList, none, none, none, none⟩,
                 ⟨some "c".toList, none, none, none, none⟩]
      = ["1".toList, "00:00:00,000 --> 00:00:02,000".toList, "a".toList, [],
         "2".toList, "00:00:02,000 --> 00:00:04,000".toList, "b".toList, [],
         "3".toList, "00:00:04,000 --> 00:00:06,000".toList, "c".toList, []]
    ∧ write_vtt [⟨some "a".toList, none, none, none, none⟩,
                 ⟨some "b".toList, none, none, none, none⟩,
                 ⟨some "c".toList, none, none, none, none⟩]
      = ["WEBVTT".toList, [],
         "00:00:00.000 --> 00:00:02.000".toList, "a".toList, [],
         "00:00:02.000 --> 00:00:04.000".toList, "b".toList, [],
         "00:00:04.000 --> 00:00:06.000".toList, "c".toList, []] := by
  refine ⟨?_, ?_, rfl, by decide, by decide, by decide⟩
  · intro duration next_start i
    rfl
  · intro d hd
    simp [durOrDefault, hd]

/-- Witness for `C2_synthetic_timeline` (its one hypothesis, `d ≠ 0`, at
`d = 5`). -/
theorem C2_synthetic_timeline_witness :
    (5 : ℚ) ≠ 0 ∧ durOrDefault (some 5) = 5 :=
  ⟨by norm_num, C2_synthetic_timeline.2.1 5 (by norm_num)⟩

/-! ## The raw subtitle cue parsers of `yt_dlp_subtitle_fallback`

The two cue regexes (lines 140 and 160) are rendered line by line, the
file's text being the `"\n"`-join of its lines.  The SRT regex requires an
index line (`\d+\s*\n`, i.e. a line whose trailing-whitespace-stripped form
ends in a digit) before the timing line and uses a comma before the
milliseconds — the source replaces the comma with a period before calling
`to_secs`, which yields the same value as parsing with the comma directly.
`to_secs` itself (`h*3600 + m*60 + float(s)`) is fused into `matchTs`. -/

/-- Python whitespace (`\s` over ASCII; the data here is ASCII). -/
def isWs (c : Char) : Bool :=
  c = ' ' ∨ c = '\t' ∨ c = '\n' ∨ c = '\r' ∨ c = '\x0b' ∨ c = '\x0c'

/-- Numeric value of a digit character. -/
def dval (c : Char) : ℕ := c.toNat - 48

/-- Value of a digit string. -/
def digitsVal (ds : List Char) : ℕ := ds.foldl (fun a c => a * 10 + dval c) 0

/-- The timestamp pattern `\d{2}:\d{2}:\d{2}<sep>\d+` at the head of the
input, combined with `to_secs`: returns `h*3600 + m*60 + s` seconds (with
`s` the fractional seconds group read as a decimal) and the unconsumed
rest.  The `try/except` around `to_secs` in the source is unreachable here:
a regex-matched timestamp always parses. -/
def matchTs (sep : Char) : List Char → Option (ℚ × List Char)
  | h1 :: h2 :: c1 :: m1 :: m2 :: c2 :: s1 :: s2 :: p :: rest =>
    if h1.isDigit ∧ h2.isDigit ∧ c1 = ':' ∧ m1.isDigit ∧ m2.isDigit ∧ c2 = ':'
        ∧ s1.isDigit ∧ s2.isDigit ∧ p = sep then
      let ds := rest.takeWhile Char.isDigit
      if ds = [] then none
      else some
        ((((dval h1 * 10 + dval h2) * 3600 + (dval m1 * 10 + dval m2) * 60
            + (dval s1 * 10 + dval s2) : ℕ) : ℚ)
          + (digitsVal ds : ℚ) / (10 : ℚ) ^ ds.length,
         rest.dropWhile Char.isDigit)
    else none
  | _ => none

/-- The `\s*-->\s*` separator between the two timestamps. -/
def chompArrow (l : List Char) : Option (List Char) :=
  match l.dropWhile isWs with
  | '-' :: '-' :: '>' :: r => some (r.dropWhile isWs)
  | _ => none

/-- A full timing line `TS --> TS` (the regex allows trailing whitespace
before the newline that ends the line). -/
def timingLine (sep : Char) (l : List Char) : Option (ℚ × ℚ) :=
  match matchTs sep l with
  | none => none
  | some (s, r1) =>
    match chompArrow r1 with
    | none => none
    | some r2 =>
      match matchTs sep r2 with
      | none => none
      | some (e, r3) => if r3.all isWs then some (s, e) else none

/-- Python `str.strip()` (ASCII whitespace). -/
def pyStrip (l : List Char) : List Char :=
  ((l.dropWhile isWs).reverse.dropWhile isWs).reverse

/-- `group(3).strip().replace("\n", " ")` applied to the body lines of a
cue block. -/
def cleanBody (body : List (List Char)) : List Char :=
  (pyStrip (List.intercalate ['\n'] body)).map (fun c => if c = '\n' then ' ' else c)

/-- Python `round(x, 3)`: round to 3 decimal places, half to even. -/
def round3 (q : ℚ) : ℚ := (pyRound (q * 1000) : ℚ) / 1000

/-- A parsed subtitle cue (lines 141-154 / 161-174): `start` from the
timing-line start, `duration = round(end − start, 3)` — also when that is
negative — and null speaker/confidence. -/
def parsedCue (s e : ℚ) (body : List (List Char)) : Cue :=
  { text := some (cleanBody body), start := some s,
    duration := some (round3 (e - s)), speaker := none, confidence := none }

/-- The VTT cue regex (line 140) read line by line: a line matching the
timing pattern opens a cue whose body (`group(3)`, lazy up to `\n{2,}` or
end of input) is the following lines up to the first empty line; scanning
resumes there.  A timing line that is the input's very last line cannot
match (the pattern requires a `\n` after the timing).  This line-level
reading agrees with the regex on inputs whose cue bodies are non-empty
lines starting with a non-whitespace character — the shapes the theorems
below quantify over; the regex's backtracking differs on empty bodies.
Fuelled for structural recursion; the line count is always enough fuel. -/
def parseVttCuesF : ℕ → List (List Char) → List Cue
  | 0, _ => []
  | _ + 1, [] => []
  | fuel + 1, l :: rest =>
    match timingLine '.' l with
    | some (s, e) =>
      if rest = [] then []
      else
        parsedCue s e (rest.takeWhile (fun x => x ≠ []))
          :: parseVttCuesF fuel (rest.dropWhile (fun x => x ≠ []))
    | none => parseVttCuesF fuel rest

/-- The VTT cue pass over the lines of a subtitle file. -/
def vtt_pattern_cues (ls : List (List Char)) : List Cue :=
  parseVttCuesF ls.length ls

/-- The `\d+\s*\n` index-line requirement of the SRT regex (line 160): the
line, with trailing whitespace stripped, ends in a digit. -/
def srtIndexLine (l : List Char) : Bool :=
  match l.reverse.dropWhile isWs with
  | c :: _ => c.isDigit
  | [] => false

/-- The SRT cue regex (line 160) read line by line: an index line followed
by a comma-separated timing line opens a cue; otherwise scanning advances
one line.  Same line-level reading caveats as `parseVttCuesF`. -/
def parseSrtCuesF : ℕ → List (List Char) → List Cue
  | 0, _ => []
  | _ + 1, [] => []
  | _ + 1, [_] => []
  | fuel + 1, l1 :: l2 :: rest =>
    if srtIndexLine l1 then
      match timingLine ',' l2 with
      | some (s, e) =>
        if rest = [] then []
        else
          parsedCue s e (rest.takeWhile (fun x => x ≠ []))
            :: parseSrtCuesF fuel (rest.dropWhile (fun x => x ≠ []))
      | none => parseSrtCuesF fuel (l2 :: rest)
    else parseSrtCuesF fuel (l2 :: rest)

/-- The SRT cue pass over the lines of a subtitle file. -/
def srt_pattern_cues (ls : List (List Char)) : List Cue :=
  parseSrtCuesF ls.length ls

theorem pyRound_nonpos {q : ℚ} (h : q < 0) : pyRound q ≤ 0 := by
  have hf : (⌊q⌋ : ℚ) ≤ q := Int.floor_le q
  have hneg : ⌊q⌋ ≤ -1 := by
    have : (⌊q⌋ : ℚ) < 0 := lt_of_le_of_lt hf h
    have : ⌊q⌋ < 0 := by exact_mod_cast this
    omega
  rw [pyRound]
  split
  · omega
  · split
    · omega
    · split <;> omega

theorem round3_nonpos {q : ℚ} (h : q < 0) : round3 q ≤ 0 := by
  have h1 : q * 1000 < 0 := by nlinarith
  have h2 : (pyRound (q * 1000) : ℚ) ≤ 0 := by exact_mod_cast pyRound_nonpos h1
  rw [round3]
  exact div_nonpos_of_nonpos_of_nonneg h2 (by norm_num)

/-- C5 counterexample: the VTT block
`"00:00:02.000 --> 00:00:01.000" / "x"` — end one second *before* start —
parses to a cue with duration −1.0, not null as the claim requires. -/
theorem C5_cex :
    vtt_pattern_cues ["00:00:02.000 --> 00:00:01.000".toList, "x".toList, []]
      = [{ text := some "x".toList, start := some 2, duration := some (-1),
           speaker := none, confidence := none }]
    ∧ some (-1 : ℚ) ≠ (none : Option ℚ) :=
  ⟨by decide, by decide⟩

/-- C5 (amended): for every cue block matched from raw VTT or SRT text,
start is the timing-line start converted as h·3600 + m·60 + s (s read with
its decimal fraction), duration = round(end − start, 3) — also when end
precedes start, in which case the duration is kept as a non-positive number
rather than becoming null (the `except` branch that nulls both timings is
unreachable for regex-matched timestamps, which always parse). -/
theorem C5_block_times (sep h1 h2 m1 m2 s1 s2 : Char) (frac : List Char)
    (hh1 : h1.isDigit = true) (hh2 : h2.isDigit = true)
    (hm1 : m1.isDigit = true) (hm2 : m2.isDigit = true)
    (hs1 : s1.isDigit = true) (hs2 : s2.isDigit = true)
    (hfne : frac ≠ []) (hfd : ∀ c ∈ frac, c.isDigit = true) :
    matchTs sep (h1 :: h2 :: ':' :: m1 :: m2 :: ':' :: s1 :: s2 :: sep :: frac)
      = some ((((dval h1 * 10 + dval h2) * 3600 + (dval m1 * 10 + dval m2) * 60
            + (dval s1 * 10 + dval s2) : ℕ) : ℚ)
          + (digitsVal frac : ℚ) / (10 : ℚ) ^ frac.length, [])
    ∧ (∀ (s e : ℚ) (body : List (List Char)),
        (parsedCue s e body).start = some s
        ∧ (parsedCue s e body).duration = some (round3 (e - s))
        ∧ (parsedCue s e body).speaker = none
        ∧ (parsedCue s e body).confidence = none)
    ∧ (∀ s e : ℚ, e < s → round3 (e - s) ≤ 0)
    ∧ (∀ (l : List Char) (rest : List (List Char)) (s e : ℚ),
        timingLine '.' l = some (s, e) → rest ≠ [] →
        (vtt_pattern_cues (l :: rest)).head?
          = some (parsedCue s e (rest.takeWhile (fun x => x ≠ [])))) := by
  refine ⟨?_, ?_, ?_, ?_⟩
  · have htake : frac.takeWhile Char.isDigit = frac :=
      List.takeWhile_eq_self_iff.2 hfd
    have hdrop : frac.dropWhile Char.isDigit = [] :=
      List.dropWhile_eq_nil_iff.2 hfd
    simp only [matchTs, htake, hdrop]
    rw [if_pos (by simp [hh1, hh2, hm1, hm2, hs1, hs2])]
    rw [if_neg hfne]
  · intro s e body
    exact ⟨rfl, rfl, rfl, rfl⟩
  · intro s e h
    exact round3_nonpos (by linarith)
  · intro l rest s e ht hr
    rw [vtt_pattern_cues, List.length_cons]
    simp only [parseVttCuesF, ht, if_neg hr]
    rfl

/-! ## `write_json` and the content round trip (C7)

`write_json` dumps the item dicts as a JSON document; the document is
modelled as a JSON value (the `json` library's text serialization and
re-parsing of values is taken as exact, which is what the library
guarantees for the finite numbers and strings involved). -/

/-- A JSON value. -/
inductive Json where
  | null : Json
  | num : ℚ → Json
  | str : List Char → Json
  | arr : List Json → Json
  | obj : List (String × Json) → Json

/-- An optional string field of a cue dict as JSON. -/
def optStrJson : Option (List Char) → Json
  | some s => Json.str s
  | none => Json.null

/-- An optional numeric field of a cue dict as JSON. -/
def optNumJson : Option ℚ → Json
  | some q => Json.num q
  | none => Json.null

/-- `write_json` (lines 361-364): the cue sequence serialized verbatim, all
five keys per cue. -/
def write_json (items : List Cue) : Json :=
  Json.arr (items.map (fun c => Json.obj
    [("text", optStrJson c.text), ("start", optNumJson c.start),
     ("duration", optNumJson c.duration), ("speaker", optStrJson c.speaker),
     ("confidence", optNumJson c.confidence)]))

/-- JSON object member lookup (null when absent). -/
def jsonLookup : List (String × Json) → String → Json
  | [], _ => Json.null
  | (k, v) :: rest, n => if k = n then v else jsonLookup rest n

/-- A JSON reader for cue texts: the `"text"` member of each array element
(`None` when null or not a string). -/
def jsonTexts : Json → List (Option (List Char))
  | Json.arr xs => xs.map (fun j =>
      match j with
      | Json.obj fs =>
        match jsonLookup fs "text" with
        | Json.str s => some s
        | _ => none
      | _ => none)
  | _ => []

/-- The text values of a cue sequence, in order. -/
def cueTexts (cs : List Cue) : List (Option (List Char)) := cs.map Cue.text

/-- A cue whose content survives the srt/vtt writers' text round trip: null
speaker (the writers fold a truthy speaker into the text line as
`"speaker: text"`), and a text that is a non-empty single line with no
leading or trailing whitespace (the parser strips the body, joins its lines
with spaces, and an empty body changes how the regex matches). -/
def contentRT (c : Cue) : Bool :=
  decide (c.speaker = none) &&
    match c.text with
    | some t => decide (t ≠ []) && decide (pyStrip t = t) && decide ('\n' ∉ t)
    | none => false

/-- All rendered cue times within `[0, 359999]` seconds from index `i` on:
the rendered timestamps then carry two-digit hour fields, as the `\d{2}`
timestamp regex requires. -/
def timesOkFrom : ℕ → List Cue → Bool
  | _, [] => true
  | i, c :: rest =>
    let se := renderTimes c.start c.duration (headStart rest) i
    decide (0 ≤ se.1) && decide (se.1 ≤ 359999)
      && decide (0 ≤ se.2) && decide (se.2 ≤ 359999) && timesOkFrom (i + 1) rest

/-- All rendered cue times of the list within `[0, 359999]` seconds. -/
def timesOk (items : List Cue) : Bool := timesOkFrom 0 items

theorem pyRound_nonneg {q : ℚ} (h : 0 ≤ q) : 0 ≤ pyRound q := by
  have hf : (0 : ℤ) ≤ ⌊q⌋ := Int.floor_nonneg.2 h
  rw [pyRound]
  split
  · omega
  · split
    · omega
    · split <;> omega

theorem pyRound_le_add_one (q : ℚ) : (pyRound q : ℚ) ≤ q + 1 := by
  have hf : (⌊q⌋ : ℚ) ≤ q := Int.floor_le q
  have hle : pyRound q ≤ ⌊q⌋ + 1 := by
    rw [pyRound]
    split
    · omega
    · split
      · omega
      · split <;> omega
  calc (pyRound q : ℚ) ≤ ((⌊q⌋ + 1 : ℤ) : ℚ) := by exact_mod_cast hle
    _ ≤ q + 1 := by push_cast; linarith

theorem tdSeconds_nonneg {q : ℚ} (h : 0 ≤ q) : 0 ≤ tdSeconds q := by
  have h1 : (0 : ℤ) ≤ pyRound (q * 1000000) := pyRound_nonneg (by positivity)
  have h2 : (0 : ℚ) ≤ (pyRound (q * 1000000) : ℚ) := by exact_mod_cast h1
  rw [tdSeconds]
  positivity

theorem tdSeconds_lt {q : ℚ} (h : q ≤ 359999) : tdSeconds q < 360000 := by
  have h2 := pyRound_le_add_one (q * 1000000)
  rw [tdSeconds, div_lt_iff₀ (by norm_num : (0:ℚ) < 1000000)]
  linarith

theorem digitCh_isDigit {d : ℕ} (h : d < 10) : (digitCh d).isDigit = true := by
  interval_cases d <;> decide

theorem natCharsF_of_lt10 {fuel n : ℕ} (hf : 1 ≤ fuel) (h : n < 10) :
    natCharsF fuel n = [digitCh n] := by
  cases fuel with
  | zero => omega
  | succ f => rw [natCharsF, if_pos h]

theorem natChars_of_lt10 {n : ℕ} (h : n < 10) : natChars n = [digitCh n] :=
  natCharsF_of_lt10 (by omega) h

theorem natCharsF_of_lt100 {fuel n : ℕ} (hf : 2 ≤ fuel) (h10 : 10 ≤ n) (h : n < 100) :
    natCharsF fuel n = [digitCh (n / 10), digitCh (n % 10)] := by
  cases fuel with
  | zero => omega
  | succ f =>
    rw [natCharsF, if_neg (by omega)]
    rw [natCharsF_of_lt10 (by omega) (by omega)]
    rfl

theorem natChars_of_lt100 {n : ℕ} (h10 : 10 ≤ n) (h : n < 100) :
    natChars n = [digitCh (n / 10), digitCh (n % 10)] :=
  natCharsF_of_lt100 (by omega) h10 h

theorem natChars_of_lt1000 {n : ℕ} (h100 : 100 ≤ n) (h : n < 1000) :
    natChars n = [digitCh (n / 100), digitCh (n / 10 % 10), digitCh (n % 10)] := by
  rw [natChars]
  have h1 : ¬ n < 10 := by omega
  cases hn : n with
  | zero => omega
  | succ m =>
    rw [natCharsF, if_neg (by omega)]
    rw [natCharsF_of_lt100 (by omega) (by omega) (by omega)]
    have : n / 10 / 10 = n / 100 := by
      rw [Nat.div_div_eq_div_mul]
    rw [← hn]
    rw [Nat.div_div_eq_div_mul]
    rfl

theorem padInt2_shape {k : ℤ} (h0 : 0 ≤ k) (h : k ≤ 99) :
    ∃ a b : Char, padInt 2 k = [a, b] ∧ a.isDigit = true ∧ b.isDigit = true := by
  rw [padInt, if_neg (by omega)]
  by_cases hk : k.toNat < 10
  · rw [natChars_of_lt10 hk]
    exact ⟨'0', digitCh k.toNat, rfl, by decide, digitCh_isDigit hk⟩
  · rw [natChars_of_lt100 (by omega) (by omega)]
    exact ⟨digitCh (k.toNat / 10), digitCh (k.toNat % 10), rfl,
      digitCh_isDigit (by omega), digitCh_isDigit (by omega)⟩

theorem padInt3_shape {k : ℤ} (h0 : 0 ≤ k) (h : k ≤ 999) :
    ∃ a b c : Char, padInt 3 k = [a, b, c]
      ∧ a.isDigit = true ∧ b.isDigit = true ∧ c.isDigit = true := by
  rw [padInt, if_neg (by omega)]
  by_cases hk : k.toNat < 10
  · rw [natChars_of_lt10 hk]
    exact ⟨'0', '0', digitCh k.toNat, rfl, by decide, by decide, digitCh_isDigit hk⟩
  · by_cases hk2 : k.toNat < 100
    · rw [natChars_of_lt100 (by omega) hk2]
      exact ⟨'0', digitCh (k.toNat / 10), digitCh (k.toNat % 10), rfl, by decide,
        digitCh_isDigit (by omega), digitCh_isDigit (by omega)⟩
    · rw [natChars_of_lt1000 (by omega) (by omega)]
      exact ⟨digitCh (k.toNat / 100), digitCh (k.toNat / 10 % 10), digitCh (k.toNat % 10), rfl,
        digitCh_isDigit (by omega), digitCh_isDigit (by omega), digitCh_isDigit (by omega)⟩

/-- For rendered times in `[0, 359999]` the timestamp is
`\d\d:\d\d:\d\d<sep>\d\d\d`. -/
theorem ts_chars_shape (sep : Char) {q : ℚ} (h0 : 0 ≤ q) (h1 : q ≤ 359999) :
    ∃ (a b c d e f : Char) (ms3 : List Char),
      ts_chars sep q = a :: b :: ':' :: c :: d :: ':' :: e :: f :: sep :: ms3
      ∧ a.isDigit = true ∧ b.isDigit = true ∧ c.isDigit = true ∧ d.isDigit = true
      ∧ e.isDigit = true ∧ f.isDigit = true
      ∧ ms3 ≠ [] ∧ (∀ x ∈ ms3, x.isDigit = true) := by
  have hts0 : 0 ≤ tdSeconds q := tdSeconds_nonneg h0
  have hts1 : tdSeconds q < 360000 := tdSeconds_lt h1
  have htotal : pyInt (tdSeconds q) = ⌊tdSeconds q⌋ := pyInt_of_nonneg hts0
  have htot0 : 0 ≤ ⌊tdSeconds q⌋ := Int.floor_nonneg.2 hts0
  have htot1 : ⌊tdSeconds q⌋ ≤ 359999 := by
    have : ⌊tdSeconds q⌋ < (360000 : ℤ) := Int.floor_lt.2 (by exact_mod_cast hts1)
    omega
  have hfr0 : (0 : ℚ) ≤ tdSeconds q - (⌊tdSeconds q⌋ : ℚ) := by
    have := Int.floor_le (tdSeconds q)
    linarith
  have hfr1 : tdSeconds q - (⌊tdSeconds q⌋ : ℚ) < 1 := by
    have := Int.lt_floor_add_one (tdSeconds q)
    linarith
  have hms : pyInt ((tdSeconds q - (⌊tdSeconds q⌋ : ℚ)) * 1000)
      = ⌊(tdSeconds q - (⌊tdSeconds q⌋ : ℚ)) * 1000⌋ :=
    pyInt_of_nonneg (by positivity)
  have hms0 : 0 ≤ ⌊(tdSeconds q - (⌊tdSeconds q⌋ : ℚ)) * 1000⌋ :=
    Int.floor_nonneg.2 (by positivity)
  have hms1 : ⌊(tdSeconds q - (⌊tdSeconds q⌋ : ℚ)) * 1000⌋ ≤ 999 := by
    have : ⌊(tdSeconds q - (⌊tdSeconds q⌋ : ℚ)) * 1000⌋ < (1000 : ℤ) :=
      Int.floor_lt.2 (by push_cast; nlinarith)
    omega
  have hhh : Int.fdiv ⌊tdSeconds q⌋ 3600 = ⌊tdSeconds q⌋ / 3600 :=
    Int.fdiv_eq_ediv _ (by norm_num)
  have hmmod : Int.fmod ⌊tdSeconds q⌋ 3600 = ⌊tdSeconds q⌋ % 3600 :=
    Int.fmod_eq_emod _ (by norm_num)
  have hmm : Int.fdiv (Int.fmod ⌊tdSeconds q⌋ 3600) 60 = ⌊tdSeconds q⌋ % 3600 / 60 := by
    rw [hmmod]
    exact Int.fdiv_eq_ediv _ (by norm_num)
  have hss : Int.fmod ⌊tdSeconds q⌋ 60 = ⌊tdSeconds q⌋ % 60 :=
    Int.fmod_eq_emod _ (by norm_num)
  obtain ⟨a, b, hab, ha, hb⟩ :=
    padInt2_shape (k := ⌊tdSeconds q⌋ / 3600) (by omega) (by omega)
  obtain ⟨c, d, hcd, hc, hd⟩ :=
    padInt2_shape (k := ⌊tdSeconds q⌋ % 3600 / 60) (by omega) (by omega)
  obtain ⟨e, f, hef, he, hf⟩ :=
    padInt2_shape (k := ⌊tdSeconds q⌋ % 60) (by omega) (by omega)
  obtain ⟨g1, g2, g3, hg, hg1, hg2, hg3⟩ :=
    padInt3_shape (k := ⌊(tdSeconds q - (⌊tdSeconds q⌋ : ℚ)) * 1000⌋) hms0 hms1
  refine ⟨a, b, c, d, e, f, [g1, g2, g3], ?_, ha, hb, hc, hd, he, hf, by simp, ?_⟩
  · rw [ts_chars]
    rw [htotal, hms, hhh, hmm, hss, hab, hcd, hef, hg]
    rfl
  · intro x hx
    simp only [List.mem_cons, List.not_mem_nil, or_false] at hx
    rcases hx with rfl | rfl | rfl
    · exact hg1
    · exact hg2
    · exact hg3

theorem isWs_of_isDigit {c : Char} (h : c.isDigit = true) : isWs c = false := by
  cases hw : isWs c
  · rfl
  · exfalso
    simp only [isWs, Bool.or_eq_true, decide_eq_true_eq] at hw
    rcases hw with rfl | rfl | rfl | rfl | rfl | rfl <;> exact absurd h (by decide)

/-- A rendered timestamp followed by nothing or by a space parses back: the
timestamp pattern consumes exactly the rendered characters. -/
theorem matchTs_render (sep : Char) {q : ℚ} (h0 : 0 ≤ q) (h1 : q ≤ 359999)
    (tail : List Char) (htail : tail = [] ∨ ∃ r, tail = ' ' :: r) :
    ∃ v, matchTs sep (ts_chars sep q ++ tail) = some (v, tail) := by
  obtain ⟨a, b, c, d, e, f, ms3, hshape, ha, hb, hc, hd, he, hf, hne, hdig⟩ :=
    ts_chars_shape sep h0 h1
  rw [hshape]
  simp only [List.cons_append]
  have htw : (ms3 ++ tail).takeWhile Char.isDigit = ms3 := by
    rw [List.takeWhile_append]
    rw [List.takeWhile_eq_self_iff.2 hdig]
    rw [if_pos rfl]
    rcases htail with rfl | ⟨r, rfl⟩
    · simp
    · have : List.takeWhile Char.isDigit (' ' :: r) = [] := rfl
      rw [this, List.append_nil]
  have hdw : (ms3 ++ tail).dropWhile Char.isDigit = tail := by
    rw [List.dropWhile_append]
    rw [List.dropWhile_eq_nil_iff.2 hdig]
    simp only [List.isEmpty_nil, if_true]
    rcases htail with rfl | ⟨r, rfl⟩
    · rfl
    · rfl
  simp only [matchTs]
  rw [if_pos (by simp [ha, hb, hc, hd, he, hf])]
  rw [htw, hdw, if_neg hne]
  exact ⟨_, rfl⟩

/-- A rendered timing line `TS --> TS` parses as a timing line whenever both
times are in `[0, 359999]`. -/
theorem timingLine_render (sep : Char) {q1 q2 : ℚ}
    (h10 : 0 ≤ q1) (h11 : q1 ≤ 359999) (h20 : 0 ≤ q2) (h21 : q2 ≤ 359999) :
    ∃ v1 v2, timingLine sep (ts_chars sep q1 ++ " --> ".toList ++ ts_chars sep q2)
      = some (v1, v2) := by
  have hsplit : ts_chars sep q1 ++ " --> ".toList ++ ts_chars sep q2
      = ts_chars sep q1 ++ (' ' :: ('-' :: '-' :: '>' :: ' ' :: ts_chars sep q2)) := by
    rw [List.append_assoc]
    rfl
  obtain ⟨v1, hm1⟩ := matchTs_render sep h10 h11
    (' ' :: ('-' :: '-' :: '>' :: ' ' :: ts_chars sep q2)) (Or.inr ⟨_, rfl⟩)
  have hm2 : ∃ v, matchTs sep (ts_chars sep q2 ++ []) = some (v, []) :=
    matchTs_render sep h20 h21 [] (Or.inl rfl)
  rw [List.append_nil] at hm2
  obtain ⟨v2, hm2⟩ := hm2
  obtain ⟨a2, b2, c2, d2, e2, f2, ms2, hshape2, ha2, hrest2⟩ := ts_chars_shape sep h20 h21
  have h2 : List.dropWhile isWs (' ' :: ts_chars sep q2) = ts_chars sep q2 := by
    have hstep : List.dropWhile isWs (' ' :: ts_chars sep q2)
        = List.dropWhile isWs (ts_chars sep q2) := rfl
    rw [hstep, hshape2, List.dropWhile_cons, isWs_of_isDigit ha2]
    simp
  have harrow : chompArrow (' ' :: ('-' :: '-' :: '>' :: ' ' :: ts_chars sep q2))
      = some (ts_chars sep q2) := by
    have h0 : chompArrow (' ' :: ('-' :: '-' :: '>' :: ' ' :: ts_chars sep q2))
        = some (List.dropWhile isWs (' ' :: ts_chars sep q2)) := rfl
    rw [h0, h2]
  refine ⟨v1, v2, ?_⟩
  rw [hsplit]
  simp only [timingLine, hm1, harrow, hm2]
  simp

theorem natCharsF_all_digits :
    ∀ (fuel n : ℕ), n < fuel → ∀ c ∈ natCharsF fuel n, c.isDigit = true := by
  intro fuel
  induction fuel with
  | zero => intro n h; omega
  | succ f ih =>
    intro n h c hc
    rw [natCharsF] at hc
    by_cases h10 : n < 10
    · rw [if_pos h10] at hc
      simp only [List.mem_singleton] at hc
      exact hc ▸ digitCh_isDigit h10
    · rw [if_neg h10] at hc
      rw [List.mem_append] at hc
      rcases hc with hc | hc
      · exact ih (n / 10) (by omega) c hc
      · simp only [List.mem_singleton] at hc
        exact hc ▸ digitCh_isDigit (Nat.mod_lt _ (by omega))

theorem natChars_all_digits {n : ℕ} : ∀ c ∈ natChars n, c.isDigit = true :=
  natCharsF_all_digits (n + 1) n (by omega)

theorem natChars_ne_nil {n : ℕ} : natChars n ≠ [] := by
  by_cases h : n < 10
  · rw [natChars_of_lt10 h]
    simp
  · rw [natChars, natCharsF, if_neg h]
    simp

theorem srtIndexLine_natChars {m : ℕ} : srtIndexLine (natChars m) = true := by
  rw [srtIndexLine]
  cases hrev : (natChars m).reverse with
  | nil =>
    rw [List.reverse_eq_nil_iff] at hrev
    exact absurd hrev natChars_ne_nil
  | cons x xs =>
    have hx : x ∈ natChars m := by
      rw [← List.mem_reverse, hrev]
      exact List.mem_cons_self x xs
    have hxd := natChars_all_digits x hx
    rw [List.dropWhile_cons, isWs_of_isDigit hxd]
    simpa using hxd

theorem cleanBody_single {t : List Char} (hs : pyStrip t = t) (hn : '\n' ∉ t) :
    cleanBody [t] = t := by
  rw [cleanBody]
  have hi : List.intercalate ['\n'] [t] = t := by simp [List.intercalate]
  rw [hi, hs]
  conv_rhs => rw [← List.map_id t]
  refine List.map_congr_left fun x hx => ?_
  have hne : ¬ x = '\n' := fun e => hn (by rw [← e]; exact hx)
  simp [hne]

theorem contentRT_spec {c : Cue} (h : contentRT c = true) :
    c.speaker = none ∧ ∃ t, c.text = some t ∧ t ≠ [] ∧ pyStrip t = t ∧ '\n' ∉ t := by
  rw [contentRT] at h
  cases htext : c.text with
  | none =>
    rw [htext] at h
    simp at h
  | some t =>
    rw [htext] at h
    simp only [Bool.and_eq_true, decide_eq_true_eq] at h
    exact ⟨h.1, t, rfl, h.2.1.1, h.2.1.2, h.2.2⟩

theorem timesOkFrom_cons {i : ℕ} {c : Cue} {rest : List Cue}
    (h : timesOkFrom i (c :: rest) = true) :
    (0 ≤ (renderTimes c.start c.duration (headStart rest) i).1
      ∧ (renderTimes c.start c.duration (headStart rest) i).1 ≤ 359999
      ∧ 0 ≤ (renderTimes c.start c.duration (headStart rest) i).2
      ∧ (renderTimes c.start c.duration (headStart rest) i).2 ≤ 359999)
    ∧ timesOkFrom (i + 1) rest = true := by
  rw [timesOkFrom] at h
  simp only [Bool.and_eq_true, decide_eq_true_eq] at h
  exact ⟨⟨h.1.1.1.1, h.1.1.1.2, h.1.1.2, h.1.2⟩, h.2⟩

theorem timingLine_nil (sep : Char) : timingLine sep [] = none := rfl

theorem timingLine_webvtt : timingLine '.' "WEBVTT".toList = none := rfl

/-- The text round trip of `write_vtt` through the VTT cue pass, cue block
by cue block. -/
theorem parseVtt_write :
    ∀ (items : List Cue) (i fuel : ℕ),
      (vttLines i items).length ≤ fuel →
      items.all contentRT = true →
      timesOkFrom i items = true →
      cueTexts (parseVttCuesF fuel (vttLines i items)) = items.map Cue.text := by
  intro items
  induction items with
  | nil =>
    intro i fuel _ _ _
    cases fuel <;> rfl
  | cons c rest ih =>
    intro i fuel hfuel hc ht
    rw [List.all_cons, Bool.and_eq_true] at hc
    obtain ⟨hc1, hcrest⟩ := hc
    obtain ⟨hsp, t, htext, htne, hstrip, hnl⟩ := contentRT_spec hc1
    obtain ⟨⟨h1, h2, h3, h4⟩, htrest⟩ := timesOkFrom_cons ht
    obtain ⟨v1, v2, htl⟩ := timingLine_render '.' h1 h2 h3 h4
    have hbody : cueBody c = t := by
      simp [cueBody, hsp, htext]
    have hlines : vttLines i (c :: rest)
        = (ts_chars '.' (renderTimes c.start c.duration (headStart rest) i).1
            ++ " --> ".toList
            ++ ts_chars '.' (renderTimes c.start c.duration (headStart rest) i).2)
          :: cueBody c :: [] :: vttLines (i + 1) rest := rfl
    rw [hlines] at hfuel ⊢
    simp only [List.length_cons] at hfuel
    cases fuel with
    | zero => omega
    | succ f =>
      simp only [parseVttCuesF, htl]
      rw [if_neg (by simp)]
      have htb : (cueBody c :: [] :: vttLines (i + 1) rest).takeWhile
          (fun x => x ≠ []) = [cueBody c] := by
        rw [hbody]
        simp [List.takeWhile_cons, htne]
      have hdb : (cueBody c :: [] :: vttLines (i + 1) rest).dropWhile
          (fun x => x ≠ []) = [] :: vttLines (i + 1) rest := by
        rw [hbody]
        simp [List.dropWhile_cons, htne]
      rw [htb, hdb]
      cases f with
      | zero => omega
      | succ f2 =>
        simp only [parseVttCuesF, timingLine_nil]
        have hrest := ih (i + 1) f2 (by omega) hcrest htrest
        simp only [cueTexts, List.map_cons] at hrest ⊢
        rw [hrest]
        simp [parsedCue, hbody, cleanBody_single hstrip hnl, htext]

/-- The text round trip of `write_srt` through the SRT cue pass, cue block
by cue block. -/
theorem parseSrt_write :
    ∀ (items : List Cue) (i fuel : ℕ),
      (srtLines i items).length ≤ fuel →
      items.all contentRT = true →
      timesOkFrom i items = true →
      cueTexts (parseSrtCuesF fuel (srtLines i items)) = items.map Cue.text := by
  intro items
  induction items with
  | nil =>
    intro i fuel _ _ _
    cases fuel <;> rfl
  | cons c rest ih =>
    intro i fuel hfuel hc ht
    rw [List.all_cons, Bool.and_eq_true] at hc
    obtain ⟨hc1, hcrest⟩ := hc
    obtain ⟨hsp, t, htext, htne, hstrip, hnl⟩ := contentRT_spec hc1
    obtain ⟨⟨h1, h2, h3, h4⟩, htrest⟩ := timesOkFrom_cons ht
    obtain ⟨v1, v2, htl⟩ := timingLine_render ',' h1 h2 h3 h4
    have hbody : cueBody c = t := by
      simp [cueBody, hsp, htext]
    have hlines : srtLines i (c :: rest)
        = natChars (i + 1)
          :: (ts_chars ',' (renderTimes c.start c.duration (headStart rest) i).1
              ++ " --> ".toList
              ++ ts_chars ',' (renderTimes c.start c.duration (headStart rest) i).2)
          :: cueBody c :: [] :: srtLines (i + 1) rest := rfl
    rw [hlines] at hfuel ⊢
    simp only [List.length_cons] at hfuel
    cases fuel with
    | zero => omega
    | succ f =>
      simp only [parseSrtCuesF, srtIndexLine_natChars, if_true, htl]
      rw [if_neg (by simp)]
      have htb : (cueBody c :: [] :: srtLines (i + 1) rest).takeWhile
          (fun x => x ≠ []) = [cueBody c] := by
        rw [hbody]
        simp [List.takeWhile_cons, htne]
      have hdb : (cueBody c :: [] :: srtLines (i + 1) rest).dropWhile
          (fun x => x ≠ []) = [] :: srtLines (i + 1) rest := by
        rw [hbody]
        simp [List.dropWhile_cons, htne]
      rw [htb, hdb]
      cases rest with
      | nil =>
        cases f <;>
          simp [srtLines, parseSrtCuesF, cueTexts, parsedCue, hbody,
            cleanBody_single hstrip hnl, htext]
      | cons c2 rest2 =>
        cases f with
        | zero =>
          exfalso
          omega
        | succ f2 =>
          obtain ⟨a, b, ls2, hsl⟩ :
              ∃ a b ls2, srtLines (i + 1) (c2 :: rest2) = a :: b :: ls2 :=
            ⟨_, _, _, rfl⟩
          have hskip : parseSrtCuesF (f2 + 1) ([] :: srtLines (i + 1) (c2 :: rest2))
              = parseSrtCuesF f2 (srtLines (i + 1) (c2 :: rest2)) := by
            rw [hsl]
            simp only [parseSrtCuesF]
            rw [if_neg (by simp [srtIndexLine])]
          rw [hskip]
          have hrest := ih (i + 1) f2 (by omega) hcrest htrest
          simp only [cueTexts, List.map_cons] at hrest ⊢
          rw [hrest]
          simp [parsedCue, hbody, cleanBody_single hstrip hnl, htext]

/-- `write_json`'s output re-read by the JSON reader yields every cue's text
verbatim, with no side conditions. -/
theorem jsonTexts_write_json (items : List Cue) :
    jsonTexts (write_json items) = items.map Cue.text := by
  rw [write_json, jsonTexts, List.map_map]
  refine List.map_congr_left fun c _ => ?_
  cases htext : c.text <;> simp [jsonLookup, optStrJson, htext]

/-- C7 (amended): re-parsing a writer's output with the corresponding
reader preserves the text values in order, provided (for the srt and vtt
formats) every cue has a null speaker — a truthy speaker is folded into the
text line as `"speaker: text"` and comes back glued to the text — and a
text that is a non-null, non-empty single line without surrounding
whitespace, and every rendered cue time stays below 100 hours (so the
`\d{2}` hour fields of the timestamp regex apply).  The json round trip
holds for every cue sequence with no side conditions. -/
theorem C7_text_roundtrip (items : List Cue)
    (hc : items.all contentRT = true) (ht : timesOk items = true) :
    cueTexts (vtt_pattern_cues (write_vtt items)) = items.map Cue.text
    ∧ cueTexts (srt_pattern_cues (write_srt items)) = items.map Cue.text
    ∧ ∀ items2 : List Cue, jsonTexts (write_json items2) = items2.map Cue.text := by
  rw [timesOk] at ht
  refine ⟨?_, ?_, fun items2 => jsonTexts_write_json items2⟩
  · rw [write_vtt, vtt_pattern_cues]
    simp only [List.length_cons]
    simp only [parseVttCuesF, timingLine_webvtt, timingLine_nil]
    exact parseVtt_write items 0 _ le_rfl hc ht
  · rw [write_srt, srt_pattern_cues]
    exact parseSrt_write items 0 _ le_rfl hc ht

/-- Witness for `C7_text_roundtrip` at a concrete two-cue list. -/
theorem C7_text_roundtrip_witness :
    (([⟨some "hello".toList, some 0, some (3/2), none, none⟩,
       ⟨some "world".toList, none, none, none, none⟩] : List Cue).all contentRT = true
      ∧ timesOk [⟨some "hello".toList, some 0, some (3/2), none, none⟩,
                 ⟨some "world".toList, none, none, none, none⟩] = true)
    ∧ (cueTexts (vtt_pattern_cues (write_vtt
          [⟨some "hello".toList, some 0, some (3/2), none, none⟩,
           ⟨some "world".toList, none, none, none, none⟩]))
        = [⟨some "hello".toList, some 0, some (3/2), none, none⟩,
           (⟨some "world".toList, none, none, none, none⟩ : Cue)].map Cue.text
      ∧ cueTexts (srt_pattern_cues (write_srt
          [⟨some "hello".toList, some 0, some (3/2), none, none⟩,
           ⟨some "world".toList, none, none, none, none⟩]))
        = [⟨some "hello".toList, some 0, some (3/2), none, none⟩,
           (⟨some "world".toList, none, none, none, none⟩ : Cue)].map Cue.text
      ∧ ∀ items2 : List Cue, jsonTexts (write_json items2) = items2.map Cue.text) :=
  ⟨⟨by decide, by decide⟩,
    C7_text_roundtrip
      [⟨some "hello".toList, some 0, some (3/2), none, none⟩,
       ⟨some "world".toList, none, none, none, none⟩] (by decide) (by decide)⟩

/-! ## `extract_video_id`

The id extractor is built on `urllib.parse.urlparse` and `parse_qs`.  The
model implements CPython's `urlsplit` steps — scheme detection, `//netloc`,
fragment at the first `#`, query at the first `?` — and `parse_qsl` with
its default `keep_blank_values=False` (pairs without `=` or with an empty
value are dropped).  Three library behaviours are omitted and excluded by
the `urlPlain` hypothesis on every theorem: percent/`+` decoding of query
names and values, `;` parameter splitting of the last path segment, and
the stripping of whitespace/control characters from the URL. -/

/-- CPython `scheme_chars`: letters, digits and `+-.`. -/
def isSchemeChar (c : Char) : Bool := c.isAlpha ∨ c.isDigit ∨ c = '+' ∨ c = '-' ∨ c = '.'

/-- ASCII lowercasing (schemes and format names here are ASCII). -/
def lowerCh (c : Char) : Char :=
  if 'A' ≤ c ∧ c ≤ 'Z' then Char.ofNat (c.toNat + 32) else c

/-- Split at the first occurrence of `c` (`str.split(c, 1)` when it
succeeds, `none` when `c` does not occur). -/
def splitFirst (c : Char) : List Char → Option (List Char × List Char)
  | [] => none
  | x :: xs =>
    if x = c then some ([], xs)
    else match splitFirst c xs with
      | some (a, b) => some (x :: a, b)
      | none => none

/-- Python `str.split(sep)` for a one-character separator (never returns an
empty list: splitting the empty string gives `[""]`). -/
def splitChar (c : Char) : List Char → List (List Char)
  | [] => [[]]
  | x :: xs =>
    if x = c then [] :: splitChar c xs
    else match splitChar c xs with
      | a :: rest => (x :: a) :: rest
      | [] => [[x]]

/-- The scheme step of `urlsplit`: a leading `[A-Za-z][A-Za-z0-9+.-]*:`
becomes the (lowercased) scheme. -/
def schemeSplit (url : List Char) : List Char × List Char :=
  match splitFirst ':' url with
  | some (pre, post) =>
    match pre with
    | [] => ([], url)
    | c0 :: _ =>
      if c0.isAlpha ∧ pre.all isSchemeChar then (pre.map lowerCh, post) else ([], url)
  | none => ([], url)

/-- A character that does not end the netloc. -/
def notNetlocEnd (c : Char) : Bool := c ≠ '/' ∧ c ≠ '?' ∧ c ≠ '#'

/-- The netloc step of `urlsplit`: after a leading `//`, up to the next
`/`, `?` or `#`. -/
def netlocSplit (rest : List Char) : List Char × List Char :=
  match rest with
  | '/' :: '/' :: r => (r.takeWhile notNetlocEnd, r.dropWhile notNetlocEnd)
  | _ => ([], rest)

/-- The fragment step: split at the first `#`. -/
def fragSplit (rest : List Char) : List Char × List Char :=
  match splitFirst '#' rest with
  | some (a, b) => (a, b)
  | none => (rest, [])

/-- The query step: split at the first `?`. -/
def querySplit (rest : List Char) : List Char × List Char :=
  match splitFirst '?' rest with
  | some (a, b) => (a, b)
  | none => (rest, [])

/-- The parse result components used by `extract_video_id`. -/
structure UrlParts where
  scheme : List Char
  netloc : List Char
  path : List Char
  query : List Char
  fragment : List Char

/-- `urllib.parse.urlsplit` under the `urlPlain` caveats. -/
def urlsplitM (url : List Char) : UrlParts :=
  let s := schemeSplit url
  let n := netlocSplit s.2
  let f := fragSplit n.2
  let q := querySplit f.1
  ⟨s.1, n.1, q.1, q.2, f.2⟩

/-- `parse_qsl` with the default `keep_blank_values=False`: empty chunks,
chunks without `=`, and pairs with empty values are all dropped. -/
def parse_qsl (qs : List Char) : List (List Char × List Char) :=
  (splitChar '&' qs).filterMap fun pair =>
    if pair = [] then none
    else match splitFirst '=' pair with
      | none => none
      | some (k, v) => if v = [] then none else some (k, v)

/-- `q["v"]`: the kept values of the `v` parameter, in order («`"v" in q`»
iff this list is non-empty, since `parse_qs` only creates keys with at
least one kept pair, which is why the source's `q["v"]` truthiness test
adds nothing). -/
def vValues (url : List Char) : List (List Char) :=
  (parse_qsl (urlsplitM url).query).filterMap
    (fun kv => if kv.1 = "v".toList then some kv.2 else none)

/-- `path.strip("/")`. -/
def stripSlashes (l : List Char) : List Char :=
  ((l.dropWhile (fun c => c = '/')).reverse.dropWhile (fun c => c = '/')).reverse

/-- `path.strip("/").split("/")[-1]` (the split of a string is never
empty, so the source's `if parts:` test always passes and `parts[-1]` is
this last chunk). -/
def lastSegment (url : List Char) : List Char :=
  ((splitChar '/' (stripSlashes (urlsplitM url).path)).getLast?).getD []

/-- `re.match(r"^[A-Za-z0-9_-]{6,}$", s)` as a boolean. -/
def isVideoIdLike (s : List Char) : Bool :=
  decide (6 ≤ s.length) && s.all (fun c => c.isAlpha || c.isDigit || c = '_' || c = '-')

/-- `extract_video_id` (lines 22-34; identical copy in
flask_transcript_api.py lines 51-64): first value of a non-empty `v` query
parameter, else the last non-empty path segment when it matches the id
pattern, else `None` for the `ValueError`. -/
def extract_video_id (url : List Char) : Option (List Char) :=
  let p := urlsplitM url
  let viaQuery : Option (List Char) :=
    if p.query ≠ [] then
      match vValues url with
      | v0 :: _ => some v0
      | [] => none
    else none
  match viaQuery with
  | some v => some v
  | none =>
    if isVideoIdLike (lastSegment url) then some (lastSegment url) else none

/-- URLs free of the characters whose library handling the model omits:
controls/whitespace, `%`, `+` and `;`. -/
def urlPlain (url : List Char) : Bool :=
  url.all (fun c => decide (' ' < c) && decide (c ≠ '%') && decide (c ≠ '+') && decide (c ≠ ';'))

theorem splitFirst_not_mem {c : Char} : ∀ {l : List Char}, c ∉ l → splitFirst c l = none
  | [], _ => rfl
  | x :: xs, h => by
    have hx : ¬ x = c := fun e => h (by rw [← e]; exact List.mem_cons_self x xs)
    rw [splitFirst, if_neg hx,
      splitFirst_not_mem (fun hm => h (List.mem_cons_of_mem _ hm))]

theorem splitFirst_append {c : Char} : ∀ {a : List Char} (b : List Char), c ∉ a →
    splitFirst c (a ++ c :: b) = some (a, b)
  | [], b, _ => by rw [List.nil_append, splitFirst, if_pos rfl]
  | x :: xs, b, h => by
    have hx : ¬ x = c := fun e => h (by rw [← e]; exact List.mem_cons_self x xs)
    rw [List.cons_append, splitFirst, if_neg hx,
      splitFirst_append b (fun hm => h (List.mem_cons_of_mem _ hm))]

theorem splitChar_not_mem {c : Char} : ∀ {l : List Char}, c ∉ l → splitChar c l = [l]
  | [], _ => rfl
  | x :: xs, h => by
    have hx : ¬ x = c := fun e => h (by rw [← e]; exact List.mem_cons_self x xs)
    rw [splitChar, if_neg hx, splitChar_not_mem (fun hm => h (List.mem_cons_of_mem _ hm))]

theorem dropWhile_eq_self {p : Char → Bool} :
    ∀ {l : List Char}, (∀ x ∈ l, p x = false) → l.dropWhile p = l
  | [], _ => rfl
  | x :: xs, h => by
    rw [List.dropWhile_cons, h x (List.mem_cons_self x xs)]
    simp

theorem idLike_not_mem {id : List Char} (h : isVideoIdLike id = true) {c : Char}
    (hc : (c.isAlpha || c.isDigit || c = '_' || c = '-') = false) : c ∉ id := by
  intro hm
  rw [isVideoIdLike, Bool.and_eq_true, List.all_eq_true] at h
  have hcc := h.2 c hm
  rw [hc] at hcc
  exact absurd hcc (by simp)

theorem idLike_ne_nil {id : List Char} (h : isVideoIdLike id = true) : id ≠ [] := by
  rw [isVideoIdLike, Bool.and_eq_true, decide_eq_true_eq] at h
  intro e
  rw [e] at h
  simp at h

/-- C8: (first rule) whenever `parse_qs` keeps at least one `v` value, the
extractor returns the first one; (second rule) otherwise it returns the
last path segment of the slash-stripped path exactly when that segment
matches `^[A-Za-z0-9_-]{6,}$`, and fails (`ValueError`) otherwise; and for
every id over `[A-Za-z0-9_-]` of length ≥ 6, both the `watch?v=ID` and the
`youtu.be/ID` URL shapes extract exactly `ID`.  The `urlPlain` hypothesis
scopes the statement to URLs without the characters whose library handling
the model omits (percent/plus decoding, `;` params, whitespace
stripping). -/
theorem C8_extract_video_id :
    (∀ url : List Char, urlPlain url = true → ∀ v vs, vValues url = v :: vs →
      extract_video_id url = some v)
    ∧ (∀ url : List Char, urlPlain url = true → vValues url = [] →
      extract_video_id url
        = (if isVideoIdLike (lastSegment url) then some (lastSegment url) else none))
    ∧ (∀ id : List Char, isVideoIdLike id = true →
      extract_video_id ("https://www.youtube.com/watch?v=".toList ++ id) = some id
      ∧ extract_video_id ("https://youtu.be/".toList ++ id) = some id) := by
  refine ⟨?_, ?_, ?_⟩
  · intro url hplain v vs hv
    by_cases hq : (urlsplitM url).query = []
    · exfalso
      rw [vValues, hq] at hv
      simp [parse_qsl, splitChar] at hv
    · simp only [extract_video_id]
      rw [if_pos hq, hv]
  · intro url hplain hv
    simp only [extract_video_id]
    by_cases hq : (urlsplitM url).query = []
    · rw [if_neg (by simp [hq])]
    · rw [if_pos hq, hv]
  · intro id hid
    have hq : '?' ∉ id := idLike_not_mem hid (by decide)
    have hh : '#' ∉ id := idLike_not_mem hid (by decide)
    have ha : '&' ∉ id := idLike_not_mem hid (by decide)
    have hsl : '/' ∉ id := idLike_not_mem hid (by decide)
    have hne : id ≠ [] := idLike_ne_nil hid
    constructor
    · -- watch?v=ID
      have hs : schemeSplit ("https://www.youtube.com/watch?v=".toList ++ id)
          = ("https".toList, "//www.youtube.com/watch?v=".toList ++ id) := by
        rw [show "https://www.youtube.com/watch?v=".toList ++ id
            = "https".toList ++ ':' :: ("//www.youtube.com/watch?v=".toList ++ id) from rfl]
        rw [schemeSplit, splitFirst_append _ (by decide)]
        rfl
      have hn : netlocSplit ("//www.youtube.com/watch?v=".toList ++ id)
          = ("www.youtube.com".toList, "/watch?v=".toList ++ id) := by
        rw [show "//www.youtube.com/watch?v=".toList ++ id
            = '/' :: '/' :: ("www.youtube.com".toList ++ ("/watch?v=".toList ++ id)) from rfl]
        rw [netlocSplit, List.takeWhile_append, List.dropWhile_append]
        rw [if_pos (by decide), if_pos (by decide)]
        rw [show List.takeWhile notNetlocEnd ("/watch?v=".toList ++ id) = [] from rfl]
        rw [show List.dropWhile notNetlocEnd ("/watch?v=".toList ++ id)
            = "/watch?v=".toList ++ id from rfl]
        simp
      have hf : fragSplit ("/watch?v=".toList ++ id)
          = ("/watch?v=".toList ++ id, []) := by
        rw [fragSplit, splitFirst_not_mem]
        intro hm
        rcases List.mem_append.1 hm with hm | hm
        · exact absurd hm (by decide)
        · exact hh hm
      have hqs : querySplit ("/watch?v=".toList ++ id)
          = ("/watch".toList, "v=".toList ++ id) := by
        rw [show "/watch?v=".toList ++ id
            = "/watch".toList ++ '?' :: ("v=".toList ++ id) from rfl]
        rw [querySplit, splitFirst_append _ (by decide)]
      have hparts : urlsplitM ("https://www.youtube.com/watch?v=".toList ++ id)
          = ⟨"https".toList, "www.youtube.com".toList, "/watch".toList,
             "v=".toList ++ id, []⟩ := by
        simp only [urlsplitM, hs, hn, hf, hqs]
      have hqsl : parse_qsl ("v=".toList ++ id) = [(['v'], id)] := by
        have hsc : splitChar '&' ("v=".toList ++ id) = ["v=".toList ++ id] := by
          apply splitChar_not_mem
          intro hm
          rcases List.mem_append.1 hm with hm | hm
          · exact absurd hm (by decide)
          · exact ha hm
        have hsf : splitFirst '=' ('v' :: '=' :: id) = some (['v'], id) :=
          splitFirst_append (a := ['v']) id (by decide)
        rw [parse_qsl, hsc]
        simp [List.filterMap_cons, hsf, hne]
      have hvv : vValues ("https://www.youtube.com/watch?v=".toList ++ id) = [id] := by
        rw [vValues, hparts]
        simp only
        rw [hqsl]
        simp [List.filterMap_cons]
      simp only [extract_video_id]
      rw [hvv, hparts]
      rw [if_pos (by simp)]
    · -- youtu.be/ID
      have hs : schemeSplit ("https://youtu.be/".toList ++ id)
          = ("https".toList, "//youtu.be/".toList ++ id) := by
        rw [show "https://youtu.be/".toList ++ id
            = "https".toList ++ ':' :: ("//youtu.be/".toList ++ id) from rfl]
        rw [schemeSplit, splitFirst_append _ (by decide)]
        rfl
      have hn : netlocSplit ("//youtu.be/".toList ++ id)
          = ("youtu.be".toList, '/' :: id) := by
        rw [show "//youtu.be/".toList ++ id
            = '/' :: '/' :: ("youtu.be".toList ++ ('/' :: id)) from rfl]
        rw [netlocSplit, List.takeWhile_append, List.dropWhile_append]
        rw [if_pos (by decide), if_pos (by decide)]
        rw [show List.takeWhile notNetlocEnd ('/' :: id) = [] from rfl]
        rw [show List.dropWhile notNetlocEnd ('/' :: id) = '/' :: id from rfl]
        simp
      have hf : fragSplit ('/' :: id) = ('/' :: id, []) := by
        rw [fragSplit, splitFirst_not_mem]
        intro hm
        rcases List.mem_cons.1 hm with hm | hm
        · exact absurd hm (by decide)
        · exact hh hm
      have hqs : querySplit ('/' :: id) = ('/' :: id, []) := by
        rw [querySplit, splitFirst_not_mem]
        intro hm
        rcases List.mem_cons.1 hm with hm | hm
        · exact absurd hm (by decide)
        · exact hq hm
      have hparts : urlsplitM ("https://youtu.be/".toList ++ id)
          = ⟨"https".toList, "youtu.be".toList, '/' :: id, [], []⟩ := by
        simp only [urlsplitM, hs, hn, hf, hqs]
      have hstrip : stripSlashes ('/' :: id) = id := by
        rw [stripSlashes]
        have h1 : List.dropWhile (fun c => c = '/') ('/' :: id)
            = List.dropWhile (fun c => c = '/') id := by
          rw [List.dropWhile_cons]
          simp
        have h2 : List.dropWhile (fun c => c = '/') id = id :=
          dropWhile_eq_self (fun x hx => by
            have : ¬ x = '/' := fun e => hsl (by rw [← e]; exact hx)
            simp [this])
        have h3 : List.dropWhile (fun c => c = '/') id.reverse = id.reverse :=
          dropWhile_eq_self (fun x hx => by
            have hxm : x ∈ id := List.mem_reverse.1 hx
            have : ¬ x = '/' := fun e => hsl (by rw [← e]; exact hxm)
            simp [this])
        rw [h1, h2, h3, List.reverse_reverse]
      have hlast : lastSegment ("https://youtu.be/".toList ++ id) = id := by
        rw [lastSegment, hparts]
        simp only
        rw [hstrip, splitChar_not_mem hsl]
        rfl
      simp only [extract_video_id]
      rw [hparts, hlast]
      rw [if_neg (by simp)]
      rw [if_pos hid]

/-- Witness for `C8_extract_video_id` at concrete URLs. -/
theorem C8_extract_video_id_witness :
    (urlPlain "https://www.youtube.com/watch?v=abc-XYZ_0".toList = true
      ∧ vValues "https://www.youtube.com/watch?v=abc-XYZ_0".toList = ["abc-XYZ_0".toList]
      ∧ extract_video_id "https://www.youtube.com/watch?v=abc-XYZ_0".toList
          = some "abc-XYZ_0".toList)
    ∧ (isVideoIdLike "dQw4w9WgXcQ".toList = true
      ∧ extract_video_id ("https://youtu.be/".toList ++ "dQw4w9WgXcQ".toList)
          = some "dQw4w9WgXcQ".toList) := by
  refine ⟨⟨by decide, by decide, ?_⟩, by decide, ?_⟩
  · exact C8_extract_video_id.1 _ (by decide) _ [] (by decide)
  · exact (C8_extract_video_id.2.2 "dQw4w9WgXcQ".toList (by decide)).2

/-! ## The remaining writers and the `save_output` dispatch (C9) -/

/-- `write_txt` (lines 350-359): one line per cue, `[speaker] text` when
the speaker is truthy, else `text` (with `text = it.get("text") or ""`). -/
def write_txt (items : List Cue) : List (List Char) :=
  items.map (fun c =>
    let text := match c.text with
      | some t => t
      | none => []
    match c.speaker with
    | some sp => if sp = [] then text else '[' :: sp ++ ']' :: ' ' :: text
    | none => text)

/-- A csv cell for `start`/`duration` (lines 330-333): the VTT timestamp
when non-null, else the empty string. -/
def csvField (ts : Option ℚ) : List Char :=
  match ts with
  | none => []
  | some q => secs_to_vtt_timestamp q

/-- One `write_csv` row (lines 327-348), in the header order
start, duration, speaker, confidence, text; the csv library's quoting is
outside the model. -/
structure CsvRow where
  start : List Char
  duration : List Char
  speaker : Option (List Char)
  confidence : Option ℚ
  text : Option (List Char)

/-- `write_csv`: one row per cue. -/
def write_csv (items : List Cue) : List CsvRow :=
  items.map (fun c =>
    ⟨csvField c.start, csvField c.duration, c.speaker, c.confidence, c.text⟩)

/-- A docx paragraph (lines 366-394): optional bold `"speaker "` run,
optional italic `"[ts] "` run, then the plain text run.  The source's
truthiness test `if ts:` coincides with `start is not None` because a
rendered timestamp is never the empty string. -/
structure DocxPara where
  speakerRun : Option (List Char)
  tsRun : Option (List Char)
  textRun : List Char

/-- `write_docx`: one paragraph per cue. -/
def write_docx (items : List Cue) : List DocxPara :=
  items.map (fun c =>
    let text := match c.text with
      | some t => t
      | none => []
    ⟨(match c.speaker with
      | some sp => if sp = [] then none else some (sp ++ [' '])
      | none => none),
     (match c.start with
      | some s => some ('[' :: secs_to_vtt_timestamp s ++ "] ".toList)
      | none => none),
     text⟩)

/-- A pdf cue block (lines 396-426): an optional bold header line
`"speaker [ts] "` (emitted only when non-empty) and the body text. -/
structure PdfBlock where
  header : Option (List Char)
  body : List Char

/-- `write_pdf`: one block per cue. -/
def write_pdf (items : List Cue) : List PdfBlock :=
  items.map (fun c =>
    let text := match c.text with
      | some t => t
      | none => []
    let ts := match c.start with
      | some s => secs_to_vtt_timestamp s
      | none => []
    let header :=
      (match c.speaker with
       | some sp => if sp = [] then [] else sp ++ [' ']
       | none => []) ++
      (if ts = [] then [] else '[' :: ts ++ "] ".toList)
    ⟨if header = [] then none else some header, text⟩)

/-- The content a dispatch writes, by format. -/
inductive FileContent where
  | txt : List (List Char) → FileContent
  | json : Json → FileContent
  | srt : List (List Char) → FileContent
  | vtt : List (List Char) → FileContent
  | csv : List CsvRow → FileContent
  | docx : List DocxPara → FileContent
  | pdf : List PdfBlock → FileContent

/-- `fmt.lower()` (ASCII; format names here are ASCII). -/
def lowerStr (s : List Char) : List Char := s.map lowerCh

/-- The seven supported format names. -/
def supportedFormats : List (List Char) :=
  ["txt".toList, "json".toList, "srt".toList, "vtt".toList,
   "csv".toList, "docx".toList, "pdf".toList]

/-- `save_output` (lines 429-451): the output path is derived from the
*original* format string (or the custom path when that is truthy), then
the dispatch compares `fmt.lower()` against the seven names; `none` models
the trailing `ValueError("Unsupported format")`, which is raised before
any file is opened (every `open()` of this program happens inside the
individual writers, and the docx/pdf libraries are assumed importable). -/
def save_output (vid : List Char) (items : List Cue) (fmt : List Char)
    (custom_path : Option (List Char)) : Option (List Char × FileContent) :=
  let out_path := match custom_path with
    | some p => if p = [] then vid ++ "_transcript.".toList ++ fmt else p
    | none => vid ++ "_transcript.".toList ++ fmt
  let f := lowerStr fmt
  if f = "txt".toList then some (out_path, FileContent.txt (write_txt items))
  else if f = "json".toList then some (out_path, FileContent.json (write_json items))
  else if f = "srt".toList then some (out_path, FileContent.srt (write_srt items))
  else if f = "vtt".toList then some (out_path, FileContent.vtt (write_vtt items))
  else if f = "csv".toList then some (out_path, FileContent.csv (write_csv items))
  else if f = "docx".toList then some (out_path, FileContent.docx (write_docx items))
  else if f = "pdf".toList then some (out_path, FileContent.pdf (write_pdf items))
  else none

/-- C9 counterexample: the format name `"TXT"` is outside the seven
supported names (string equality), yet `save_output` succeeds on it — the
dispatch lowercases the name first — so "every format name outside the
seven fails" is false as stated. -/
theorem C9_cex :
    "TXT".toList ∉ supportedFormats
    ∧ (save_output "vid99".toList [] "TXT".toList none).isSome = true
    ∧ (save_output "vid99".toList [] "TXT".toList none).map Prod.fst
        = some "vid99_transcript.TXT".toList :=
  ⟨by decide, by decide, by decide⟩

/-- C9 (amended): `save_output` fails with `UnsupportedFormat` exactly when
the *lowercased* format name is outside the seven supported names (so
names are compared case-insensitively), failing before any file is
written; for each supported name it dispatches to the corresponding
writer and returns the path written (the default
`{vid}_transcript.{fmt}` when no custom path is given). -/
theorem C9_save_output_dispatch (vid : List Char) (items : List Cue)
    (fmt : List Char) (custom_path : Option (List Char)) :
    (save_output vid items fmt custom_path = none ↔ lowerStr fmt ∉ supportedFormats)
    ∧ save_output vid items "txt".toList none
        = some (vid ++ "_transcript.".toList ++ "txt".toList,
            FileContent.txt (write_txt items))
    ∧ save_output vid items "json".toList none
        = some (vid ++ "_transcript.".toList ++ "json".toList,
            FileContent.json (write_json items))
    ∧ save_output vid items "srt".toList none
        = some (vid ++ "_transcript.".toList ++ "srt".toList,
            FileContent.srt (write_srt items))
    ∧ save_output vid items "vtt".toList none
        = some (vid ++ "_transcript.".toList ++ "vtt".toList,
            FileContent.vtt (write_vtt items))
    ∧ save_output vid items "csv".toList none
        = some (vid ++ "_transcript.".toList ++ "csv".toList,
            FileContent.csv (write_csv items))
    ∧ save_output vid items "docx".toList none
        = some (vid ++ "_transcript.".toList ++ "docx".toList,
            FileContent.docx (write_docx items))
    ∧ save_output vid items "pdf".toList none
        = some (vid ++ "_transcript.".toList ++ "pdf".toList,
            FileContent.pdf (write_pdf items)) := by
  refine ⟨?_, rfl, rfl, rfl, rfl, rfl, rfl, rfl⟩
  simp only [save_output]
  split_ifs with h1 h2 h3 h4 h5 h6 h7 <;> simp_all [supportedFormats]

/-- C7 counterexample: a cue with a speaker re-parses with text
`"Bob: hi"`, not `"hi"` — the writers fold the speaker into the text line,
so the claim's unconditional text round trip fails. -/
theorem C7_cex :
    cueTexts (vtt_pattern_cues (write_vtt
      [⟨some "hi".toList, some 0, some 1, some "Bob".toList, none⟩]))
      = [some "Bob: hi".toList]
    ∧ cueTexts (srt_pattern_cues (write_srt
      [⟨some "hi".toList, some 0, some 1, some "Bob".toList, none⟩]))
      = [some "Bob: hi".toList]
    ∧ ([some "Bob: hi".toList] : List (Option (List Char)))
        ≠ ([⟨some "hi".toList, some 0, some 1, some "Bob".toList, none⟩] : List Cue).map
            Cue.text :=
  ⟨by decide, by decide, by decide⟩

/-- Witness for `C5_block_times` at the timestamp `"00:00:02.500"` and a
reversed pair of times. -/
theorem C5_block_times_witness :
    (('0').isDigit = true ∧ ('2').isDigit = true ∧ (['5', '0', '0'] : List Char) ≠ []
      ∧ ∀ c ∈ (['5', '0', '0'] : List Char), c.isDigit = true)
    ∧ matchTs '.' "00:00:02.500".toList = some (5/2, []) := by
  refine ⟨⟨rfl, rfl, by decide, by decide⟩, ?_⟩
  have h := (C5_block_times '.' '0' '0' '0' '0' '0' '2' ['5', '0', '0']
    rfl rfl rfl rfl rfl rfl (by decide) (by decide)).1
  rw [show "00:00:02.500".toList
      = ('0' :: '0' :: ':' :: '0' :: '0' :: ':' :: '0' :: '2' :: '.' :: ['5', '0', '0']) from rfl]
  rw [h]
  decide

end YT
